import Mathlib

/-!
Verification of the mbox-based local message store
(mailnews/base/src/MboxMsgOutputStream.cpp and
mailnews/local/src/nsMsgBrkMBoxStore.cpp), shallowly embedded in Lean.

Bytes are modelled as `Char` (the code treats the buffer as `char*`).
The underlying seekable output stream (`mInner`, an nsIOutputStream over
the mbox file opened in append mode) is modelled by `Sink`: a file
content, a closed flag, and a schedule of results for upcoming write
calls (an empty schedule means every write succeeds).  A partial write
followed by a retry in `MboxMsgOutputStream::Emit`'s loop is collapsed
into a single all-or-nothing write, which preserves the net effect on
the file and on the returned status.
-/

/-- Result codes (`nsresult`).  Only `NS_OK` is a success code; every
other constructor models a failure code. -/
inductive Nsresult where
  | NS_OK
  | NS_BASE_STREAM_CLOSED
  | NS_ERROR_UNEXPECTED
  | NS_ERROR_FAILURE
  | NS_ERROR_FILE_TOO_BIG
  | NS_ERROR_FILE_NO_DEVICE_SPACE
  | NS_ERROR_INVALID_ARG
  | otherFailure (code : Nat)
  deriving DecidableEq, Repr

/-- Model of the underlying mbox byte sink (`mInner`): the file bytes,
whether the stream has been closed, and the schedule of results of
upcoming write calls (head first; an exhausted schedule means success). -/
structure Sink where
  file : List Char
  closed : Bool
  sched : List Nsresult
  deriving DecidableEq, Repr

/-- One `mInner->Write()` call: fails if closed, otherwise consumes the
next scheduled result; on success the bytes are appended to the file
(the file stream is opened with `PR_APPEND`, so writes always append). -/
def sinkWrite (k : Sink) (bytes : List Char) : Nsresult × Sink :=
  if k.closed then (.NS_BASE_STREAM_CLOSED, k)
  else
    match k.sched with
    | [] => (.NS_OK, { k with file := k.file ++ bytes })
    | rv :: rest =>
      if rv = .NS_OK then (.NS_OK, { k with file := k.file ++ bytes, sched := rest })
      else (rv, { k with sched := rest })

/-- Model of `mSeekable->Seek(NS_SEEK_SET, pos)` followed by `mSeekable->SetEOF()`:
truncates the file back to `pos` bytes.  Seek and SetEOF fail on a
closed sink and are otherwise assumed to succeed. -/
def sinkTruncateTo (k : Sink) (pos : Int) : Nsresult × Sink :=
  if k.closed then (.NS_BASE_STREAM_CLOSED, k)
  else (.NS_OK, { k with file := k.file.take pos.toNat })

/-- Model of `mInner->Close()`. -/
def sinkClose (k : Sink) : Nsresult × Sink :=
  if k.closed then (.NS_BASE_STREAM_CLOSED, k)
  else (.NS_OK, { k with closed := true })

/-- States of the output-side escaping codec (MboxMsgOutputStream.h). -/
inductive MboxWState where
  | eInitial
  | eStartOfLine
  | eStartAwaitingData
  | eMidLine
  | eClosed
  | eError
  deriving DecidableEq, Repr

/-- The member state of `MboxMsgOutputStream`.  `mFromLine` stands for
the envelope line `buildFromLine(mEnvelopeSender, mEnvelopeReceivedTime)`
would produce; the claims under verification do not constrain its text,
so it is carried abstractly. -/
structure MboxMsgOutputStream where
  mState : MboxWState
  mStatus : Nsresult
  mStartFragment : List Char
  mStartPos : Int
  mCloseInnerWhenDone : Bool
  mFromLine : List Char
  deriving DecidableEq, Repr

/-- Constructor: records the starting position of the underlying mbox
file via `mSeekable->Tell()`.  The file is opened in append mode, so the
position equals the current file length.  (The `Tell()` failure path,
which latches `eError` with `mStartPos = -1`, is not modelled: the sink
model's Tell always succeeds.) -/
def MboxMsgOutputStream.mk0 (k : Sink) (closeInnerWhenDone : Bool)
    (fromLine : List Char) : MboxMsgOutputStream :=
  { mState := .eInitial
    mStatus := .NS_OK
    mStartFragment := []
    mStartPos := (k.file.length : Int)
    mCloseInnerWhenDone := closeInnerWhenDone
    mFromLine := fromLine }

/-- Helper to write to the underlying target output stream
(`MboxMsgOutputStream::Emit`).  Checks and updates the error state.
With zero bytes the C++ loop body never runs, so the inner stream is
not called at all. -/
def MboxMsgOutputStream.Emit (s : MboxMsgOutputStream) (k : Sink)
    (bytes : List Char) : Nsresult × MboxMsgOutputStream × Sink :=
  if s.mState = .eError then (s.mStatus, s, k)
  else if s.mState = .eClosed then
    (.NS_BASE_STREAM_CLOSED,
     { s with mState := .eError, mStatus := .NS_BASE_STREAM_CLOSED }, k)
  else if bytes = [] then (.NS_OK, s, k)
  else
    match sinkWrite k bytes with
    | (.NS_OK, k1) => (.NS_OK, s, k1)
    | (rv, k1) => (rv, { s with mState := .eError, mStatus := rv }, k1)

/-- Decision of the line-start escaping scan. -/
inductive EscapingDecision where
  | eDoEscape
  | eDontEscape
  | eNeedMore
  deriving DecidableEq, Repr

/-- The separator literal `"From "`. -/
def fromSep : List Char := "From ".toList

/-- The comparison loop of `DecideEscaping`: walk the separator; running
out of input means more data is needed, a mismatch means no escaping. -/
def matchSep : List Char → List Char → EscapingDecision
  | _, [] => .eDoEscape
  | [], _ :: _ => .eNeedMore
  | c :: cs, d :: ds => if c = d then matchSep cs ds else .eDontEscape

/-- Decide if a line requires "From "-escaping or not, or if more data
is required to be sure (`DecideEscaping`): skip leading `>` characters,
then compare against `"From "`. -/
def DecideEscaping (bytes : List Char) : EscapingDecision :=
  matchSep (bytes.dropWhile (fun c => c = '>')) fromSep

/-- Implementation for nsIOutputStream.streamStatus()
(`MboxMsgOutputStream::StreamStatus`). -/
def MboxMsgOutputStream.StreamStatus (s : MboxMsgOutputStream) : Nsresult :=
  match s.mState with
  | .eClosed => .NS_BASE_STREAM_CLOSED
  | .eError => s.mStatus
  | _ => .NS_OK

/-- The `while (1)` loop in `Write()`'s `eStartAwaitingData` handling:
append new chars to the buffered fragment until the escaping decision
is definite.  `Sum.inl frag` models "used up all the new data and still
not enough for a decision"; `Sum.inr (doEscape, frag, rest)` models a
definite decision with `rest` the not-yet-consumed input. -/
def awaitLoop (fragment rest : List Char) :
    List Char ⊕ (Bool × List Char × List Char) :=
  match DecideEscaping fragment with
  | .eNeedMore =>
    match rest with
    | [] => .inl fragment
    | c :: rest2 => awaitLoop (fragment ++ [c]) rest2
  | .eDoEscape => .inr (true, fragment, rest)
  | .eDontEscape => .inr (false, fragment, rest)

/-- Splitting off the first line: `std::find(src, end, LF)` viewed as a
splitter.  `some (line, rest)` has `line` ending in the newline;
`none` means the buffer holds no newline. -/
def splitLine : List Char → Option (List Char × List Char)
  | [] => none
  | c :: cs =>
    if c = '\n' then some ([c], cs)
    else
      match splitLine cs with
      | none => none
      | some (l, r) => some (c :: l, r)

/-- The main scanning loop of `MboxMsgOutputStream::Write` (the
`while (src != end)` loop plus the final flush after it).  `acc` holds
the bytes between `unwritten` and `src`; `rest` the bytes from `src` to
`end`; `count` the total byte count of this `Write()` call, reported as
written on the success paths.

The C++ iterates once per line, taking the escaping decision at the
line start and then jumping `src` past the next newline with
`std::find`.  Here the jump is unrolled one character at a time so that
the recursion is structural: `inLine` is true while we are between the
line-start decision and the next newline (inside the `std::find` jump),
so exactly when the C++ would not re-run the decision.  All `Emit`
calls happen at the same points with the same bytes as in the source:
on a definite escaping decision, on "need more data", on running out
of data mid-line (`eol == end`, with `mState = eMidLine` assigned after
a successful flush), and on the final flush after the loop (which does
not touch `mState`). -/
def MboxMsgOutputStream.WriteLoop (count : Nat) (s : MboxMsgOutputStream)
    (k : Sink) (acc : List Char) (inLine : Bool) :
    (rest : List Char) → Nsresult × Nat × MboxMsgOutputStream × Sink
  | [] =>
    let (rv, s1, k1) := s.Emit k acc
    if rv = .NS_OK then (.NS_OK, count, s1, k1) else (rv, 0, s1, k1)
  | c :: rest2 =>
    let phase1 : (Nsresult × Nat × MboxMsgOutputStream × Sink) ⊕
        (MboxMsgOutputStream × Sink × List Char) :=
      if inLine = false ∧ s.mState = .eStartOfLine then
        match DecideEscaping (c :: rest2) with
        | .eNeedMore =>
          let (rv, s1, k1) := s.Emit k acc
          if rv = .NS_OK then
            .inl (.NS_OK, count,
              { s1 with mState := .eStartAwaitingData,
                        mStartFragment := c :: rest2 }, k1)
          else .inl (rv, 0, s1, k1)
        | .eDoEscape =>
          let (rv, s1, k1) := s.Emit k acc
          if rv = .NS_OK then
            let (rv2, s2, k2) := s1.Emit k1 ['>']
            if rv2 = .NS_OK then .inr (s2, k2, []) else .inl (rv2, 0, s2, k2)
          else .inl (rv, 0, s1, k1)
        | .eDontEscape => .inr (s, k, acc)
      else .inr (s, k, acc)
    match phase1 with
    | .inl r => r
    | .inr (s1, k1, acc1) =>
      if c = '\n' then
        MboxMsgOutputStream.WriteLoop count { s1 with mState := .eStartOfLine }
          k1 (acc1 ++ [c]) false rest2
      else
        match rest2 with
        | [] =>
          let (rv, s2, k2) := s1.Emit k1 (acc1 ++ [c])
          if rv = .NS_OK then (.NS_OK, count, { s2 with mState := .eMidLine }, k2)
          else (rv, 0, s2, k2)
        | _ :: _ =>
          MboxMsgOutputStream.WriteLoop count s1 k1 (acc1 ++ [c]) true rest2

/-- Implementation for nsIOutputStream.write()
(`MboxMsgOutputStream::Write`).  Returns (status, bytesWritten, stream,
sink).  A zero count succeeds immediately; the first write emits the
envelope line; a pending undecided fragment is completed first, flushed,
and scanning falls through to the main loop over the remaining bytes. -/
def MboxMsgOutputStream.Write (s : MboxMsgOutputStream) (k : Sink)
    (buf : List Char) : Nsresult × Nat × MboxMsgOutputStream × Sink :=
  if buf.length = 0 then (.NS_OK, 0, s, k)
  else
    let (rv1, s1, k1) : Nsresult × MboxMsgOutputStream × Sink :=
      if s.mState = .eInitial then
        let (rv, sa, ka) := s.Emit k s.mFromLine
        if rv = .NS_OK then (.NS_OK, { sa with mState := .eStartOfLine }, ka)
        else (rv, sa, ka)
      else (.NS_OK, s, k)
    if rv1 ≠ .NS_OK then (rv1, 0, s1, k1)
    else if s1.mState = .eStartAwaitingData then
      match awaitLoop s1.mStartFragment buf with
      | .inl frag2 => (.NS_OK, buf.length, { s1 with mStartFragment := frag2 }, k1)
      | .inr (doEsc, frag2, rest) =>
        let (rv2, s2, k2) : Nsresult × MboxMsgOutputStream × Sink :=
          if doEsc then s1.Emit k1 ['>'] else (.NS_OK, s1, k1)
        if rv2 ≠ .NS_OK then (rv2, 0, s2, k2)
        else
          let (rv3, s3, k3) := s2.Emit k2 frag2
          if rv3 ≠ .NS_OK then (rv3, 0, s3, k3)
          else
            -- In the C++, `mState = eMidLine` is only assigned when the
            -- flushed fragment did not end in a newline; otherwise the
            -- state is left as it was (still `eStartAwaitingData`).
            let s4 := if frag2.getLast? ≠ some '\n'
              then { s3 with mState := .eMidLine } else s3
            MboxMsgOutputStream.WriteLoop buf.length
              { s4 with mStartFragment := [] } k3 [] false rest
    else MboxMsgOutputStream.WriteLoop buf.length s1 k1 [] false buf

/-- Implementation for nsIOutputStream.flush()
(`MboxMsgOutputStream::Flush`).  The inner `Flush()` is modelled as
succeeding on an open sink and failing on a closed one. -/
def MboxMsgOutputStream.Flush (s : MboxMsgOutputStream) (k : Sink) :
    Nsresult × MboxMsgOutputStream × Sink :=
  if s.mState = .eClosed then (.NS_OK, s, k)
  else if s.mState = .eError then (s.mStatus, s, k)
  else if k.closed then
    (.NS_BASE_STREAM_CLOSED,
     { s with mState := .eError, mStatus := .NS_BASE_STREAM_CLOSED }, k)
  else (.NS_OK, s, k)

/-- Internal helper for closing (`MboxMsgOutputStream::InternalClose`):
truncate the target file back to the recorded start position, then
close the inner stream if owned.  Note that in the source the `rv` of
the Seek/SetEOF block is a shadowing local, so a failed rollback is
only logged and does not change the returned status. -/
def MboxMsgOutputStream.InternalClose (s : MboxMsgOutputStream) (k : Sink) :
    Nsresult × MboxMsgOutputStream × Sink :=
  if s.mState = .eClosed then (.NS_OK, s, k)
  else
    let (rv1, k1) : Nsresult × Sink :=
      if s.mStartPos < 0 then (.NS_ERROR_UNEXPECTED, k)
      else
        -- The Seek/SetEOF block in the source assigns to a shadowing local
        -- `rv`, so a failed rollback is only logged and does not change the
        -- returned status.
        let (_, ka) := sinkTruncateTo k s.mStartPos
        (.NS_OK, ka)
    let (rv2, k2) : Nsresult × Sink :=
      if s.mCloseInnerWhenDone then
        let (rvc, kb) := sinkClose k1
        ((if rv1 = .NS_OK then rvc else rv1), kb)
      else (rv1, k1)
    (rv2, { s with mState := .eClosed }, k2)

/-- Implementation for nsIOutputStream.close()
(`MboxMsgOutputStream::Close`). -/
def MboxMsgOutputStream.Close (s : MboxMsgOutputStream) (k : Sink) :
    Nsresult × MboxMsgOutputStream × Sink :=
  s.InternalClose k

/-- The CRLF pair emitted by `Finish()`. -/
def crlf : List Char := ['\r', '\n']

/-- Implementation for nsISafeOutputStream.finish()
(`MboxMsgOutputStream::Finish`): add a final EOL if the message ended
mid-line, flush any pending fragment (plus EOL if it lacked one), write
the blank separator line, then close the inner stream if owned.  Any
failed write triggers the rollback of `InternalClose()`.  The fragment
test `mStartFragment[Length()-1] != LF` is modelled with `getLast?`; on
an empty fragment the C++ reads the terminating NUL, which is not a
newline, matching `getLast? = none`. -/
def MboxMsgOutputStream.Finish (s : MboxMsgOutputStream) (k : Sink) :
    Nsresult × MboxMsgOutputStream × Sink :=
  if s.mState = .eClosed then (.NS_OK, s, k)
  else if s.mState = .eError then
    let (_, s1, k1) := s.InternalClose k
    (s.mStatus, s1, k1)
  else
    let (rv1, s1, k1) : Nsresult × MboxMsgOutputStream × Sink :=
      if s.mState = .eMidLine then s.Emit k crlf else (.NS_OK, s, k)
    let (rv2, s2, k2) : Nsresult × MboxMsgOutputStream × Sink :=
      if rv1 = .NS_OK ∧ s1.mState = .eStartAwaitingData then
        let (rva, sa, ka) := s1.Emit k1 s1.mStartFragment
        if rva = .NS_OK then
          if s1.mStartFragment.getLast? ≠ some '\n' then sa.Emit ka crlf
          else (.NS_OK, sa, ka)
        else (rva, sa, ka)
      else (rv1, s1, k1)
    let (rv3, s3, k3) : Nsresult × MboxMsgOutputStream × Sink :=
      if rv2 = .NS_OK then s2.Emit k2 crlf else (rv2, s2, k2)
    if rv3 ≠ .NS_OK then
      let (_, s4, k4) := s3.InternalClose k3
      (rv3, s4, k4)
    else
      let (rvc, k4) : Nsresult × Sink :=
        if s3.mCloseInnerWhenDone then sinkClose k3 else (.NS_OK, k3)
      (rvc, { s3 with mState := .eClosed }, k4)

/-! ### Spec-side description of the escaping codec

The following definitions restate, in the spec's words, which lines get
escaped: "any line in the raw message body beginning with zero-or-more
`>` then `From ` is escaped by prefixing one more `>` when written".
They are used to compare the stream implementation against the spec. -/

/-- Spec-side test: does this line begin with zero-or-more `>`
immediately followed by the literal `From `? -/
def specNeedsFromEscape (line : List Char) : Bool :=
  fromSep.isPrefixOf (line.dropWhile (fun c => c = '>'))

/-- Spec-side escaping of one line: prefix one extra `>` exactly when
the line matches the zero-or-more-`>`-then-`From ` pattern. -/
def specEscapeLine (line : List Char) : List Char :=
  if specNeedsFromEscape line then '>' :: line else line

/-- Spec-side escaping of a whole body, line by line (the final
newline-less line, if any, escaped by the same rule). -/
def specMboxEscape (bs : List Char) : List Char :=
  match h : splitLine bs with
  | some (l, r) => specEscapeLine l ++ specMboxEscape r
  | none => specEscapeLine bs
termination_by bs.length
decreasing_by
  have key : ∀ (xs l r : List Char), splitLine xs = some (l, r) → r.length < xs.length := by
    intro xs
    induction xs with
    | nil =>
      intro l r hk
      simp [splitLine] at hk
    | cons c cs ih =>
      intro l r hk
      simp only [splitLine] at hk
      split at hk
      · rcases hk with ⟨rfl, rfl⟩
        simp
      · rcases hsp : splitLine cs with _ | ⟨l2, r2⟩ <;> rw [hsp] at hk
        · simp at hk
        · rcases hk with ⟨rfl, rfl⟩
          have := ih _ _ hsp
          simp only [List.length_cons]
          omega
  exact key _ _ _ h

/-- Pure description of one pass of the main `Write()` scanning loop
starting at a line start: the bytes it emits for the given input, the
final codec state, and the stashed undecided fragment (if any).  Used
to characterise `WriteLoop` on a successful sink. -/
def scanSpec (bs : List Char) : List Char × MboxWState × Option (List Char) :=
  match h : splitLine bs with
  | some (l, r) =>
    let (out, st, fr) := scanSpec r
    (specEscapeLine l ++ out, st, fr)
  | none =>
    if bs = [] then ([], .eStartOfLine, none)
    else if DecideEscaping bs = .eNeedMore then ([], .eStartAwaitingData, some bs)
    else (specEscapeLine bs, .eMidLine, none)
termination_by bs.length
decreasing_by
  have key : ∀ (xs l r : List Char), splitLine xs = some (l, r) → r.length < xs.length := by
    intro xs
    induction xs with
    | nil =>
      intro l r hk
      simp [splitLine] at hk
    | cons c cs ih =>
      intro l r hk
      simp only [splitLine] at hk
      split at hk
      · rcases hk with ⟨rfl, rfl⟩
        simp
      · rcases hsp : splitLine cs with _ | ⟨l2, r2⟩ <;> rw [hsp] at hk
        · simp at hk
        · rcases hk with ⟨rfl, rfl⟩
          have := ih _ _ hsp
          simp only [List.length_cons]
          omega
  exact key _ _ _ h

/-- Driver applying a sequence of `Write()` calls (one write
transaction under some chunking); statuses are ignored, as a caller
that keeps writing regardless would behave. -/
def writeMany (s : MboxMsgOutputStream) (k : Sink) :
    List (List Char) → MboxMsgOutputStream × Sink
  | [] => (s, k)
  | c :: cs =>
    match s.Write k c with
    | (_, _, s1, k1) => writeMany s1 k1 cs

/-- Facts preserved by every write-path operation: the recorded start
position and ownership flag never change, the stream never
transitions into `eClosed`, the sink's open/closed state is untouched,
and the file only ever grows by appending. -/
def writeFrame (s : MboxMsgOutputStream) (k : Sink)
    (s' : MboxMsgOutputStream) (k' : Sink) : Prop :=
  s'.mStartPos = s.mStartPos ∧ s'.mCloseInnerWhenDone = s.mCloseInnerWhenDone ∧
  s'.mState ≠ .eClosed ∧ k'.closed = k.closed ∧ ∃ t, k'.file = k.file ++ t

/-- An empty, open, all-succeeding sink, for concrete executions. -/
def okSink0 : Sink := { file := [], closed := false, sched := [] }

/-- A fixed envelope line for concrete executions. -/
def envLine0 : List Char := "E\n".toList

/-- A stream latched in the error state with a cached failure status,
as left behind by a failed write to the underlying sink. -/
def errStream0 : MboxMsgOutputStream :=
  { mState := .eError
    mStatus := .NS_ERROR_FAILURE
    mStartFragment := []
    mStartPos := 0
    mCloseInnerWhenDone := false
    mFromLine := envLine0 }

/-! ### nsMsgBrkMBoxStore (mailnews/local/src/nsMsgBrkMBoxStore.cpp)

The store façade is modelled at the level the claims need: the
outstanding-stream table (`m_OutstandingStreams`, folder URI → the raw
buffered mbox output stream), the mbox file bytes, and the batch
flag/keyword rewrite loops.  Raw streams are identified by numeric
ids; closing one only flushes and closes it (an `nsBufferedOutputStream`
over the mbox file opened with `PR_APPEND`), it performs no truncation.
Buffering itself is not modelled: written bytes are appended
immediately, which matches the file contents after any flush. -/

/-- State of one folder's mbox store: the file bytes, the
outstanding-stream table restricted to this folder's entry plus any
others, ids of closed raw streams, and the id counter. -/
structure StoreState where
  file : List Char
  table : List (String × Nat)
  closedRaw : List Nat
  nextId : Nat
  deriving DecidableEq, Repr

/-- A write through a raw mbox output stream: fails once the stream has
been closed, otherwise appends to the file (append-mode stream). -/
def rawWrite (st : StoreState) (id : Nat) (bytes : List Char) :
    Nsresult × StoreState :=
  if id ∈ st.closedRaw then (.NS_BASE_STREAM_CLOSED, st)
  else (.NS_OK, { st with file := st.file ++ bytes })

/-- Model of `nsMsgBrkMBoxStore::InternalGetNewMsgOutputStream`, reduced to its
effect on the outstanding-stream table and the mbox file: if the folder
already has an outstanding stream, that raw stream is `Close()`d (which
flushes and closes it — no truncation of the file happens here) and its
table entry removed; then the file is checked to end on a line boundary
(appending a CRLF if not), a fresh raw append stream is opened, and the
folder is mapped to it in the table.  Returns the new stream id; the
new message's store token is the file length at this point. -/
def InternalGetNewMsgOutputStream (uri : String) (st : StoreState) :
    StoreState × Nat :=
  let st1 :=
    match st.table.find? (fun p => p.1 = uri) with
    | some p =>
      { st with closedRaw := p.2 :: st.closedRaw,
                table := st.table.filter (fun q => ¬(q.1 = uri)) }
    | none => st
  let st2 :=
    if st1.file ≠ [] ∧ st1.file.getLast? ≠ some '\n' then
      { st1 with file := st1.file ++ crlf }
    else st1
  ({ st2 with table := (uri, st2.nextId) :: st2.table,
              nextId := st2.nextId + 1 },
   st2.nextId)

/-- One message header as the batch rewrite loops see it: the store
token as parsed by `ToInteger64` (`none` models a parse failure). -/
structure MsgHdr where
  storeToken : Option Nat
  deriving DecidableEq, Repr

/-- Observable outcome of a batch rewrite call: offsets seeked to in
order, offsets whose in-place header rewrite succeeded, how many
stream handles were opened, whether the handle was closed, whether the
summary file was marked valid, and the returned status. -/
structure CFResult where
  visited : List Nat
  rewritten : List Nat
  streamsOpened : Nat
  streamClosed : Bool
  dbMarkedValid : Bool
  status : Nsresult
  deriving DecidableEq, Repr

/-- The `for (auto msgHdr : aHdrArray)` loop of
`nsMsgBrkMBoxStore::ChangeFlags`.  `rwOk off` models whether
`RewriteMsgFlags` (whose definition lives outside this repository's
sources) succeeds at that offset.  A token parse failure returns early
without closing the stream; a rewrite failure `break`s out of the
loop, after which the stream is closed, the summary marked valid, and
`NS_OK` returned. -/
def ChangeFlagsLoop (rwOk : Nat → Bool) : List MsgHdr → CFResult → CFResult
  | [], acc =>
    { acc with streamClosed := true, dbMarkedValid := true, status := .NS_OK }
  | h :: rest, acc =>
    match h.storeToken with
    | none => { acc with status := .NS_ERROR_FAILURE }
    | some off =>
      let acc1 := { acc with visited := acc.visited ++ [off] }
      if rwOk off then
        ChangeFlagsLoop rwOk rest { acc1 with rewritten := acc1.rewritten ++ [off] }
      else
        { acc1 with streamClosed := true, dbMarkedValid := true, status := .NS_OK }

/-- Model of `nsMsgBrkMBoxStore::ChangeFlags`: rejects an empty array, opens one
writable+seekable stream via `GetOutputStream`, then runs the loop over
the headers in array order. -/
def ChangeFlags (rwOk : Nat → Bool) (hdrs : List MsgHdr) : CFResult :=
  if hdrs = [] then
    { visited := [], rewritten := [], streamsOpened := 0, streamClosed := false,
      dbMarkedValid := false, status := .NS_ERROR_INVALID_ARG }
  else
    ChangeFlagsLoop rwOk hdrs
      { visited := [], rewritten := [], streamsOpened := 1, streamClosed := false,
        dbMarkedValid := false, status := .NS_OK }

/-- The loop of `nsMsgBrkMBoxStore::ChangeKeywords`: like `ChangeFlags`
but a failing `ChangeKeywordsHelper` returns early (`NS_ENSURE_SUCCESS`)
without closing the stream. -/
def ChangeKeywordsLoop (ckOk : Nat → Bool) : List MsgHdr → CFResult → CFResult
  | [], acc =>
    { acc with streamClosed := true, dbMarkedValid := true, status := .NS_OK }
  | h :: rest, acc =>
    match h.storeToken with
    | none => { acc with status := .NS_ERROR_FAILURE }
    | some off =>
      let acc1 := { acc with visited := acc.visited ++ [off] }
      if ckOk off then
        ChangeKeywordsLoop ckOk rest { acc1 with rewritten := acc1.rewritten ++ [off] }
      else
        { acc1 with status := .NS_ERROR_FAILURE }

/-- Model of `nsMsgBrkMBoxStore::ChangeKeywords`, at the same level of detail as
`ChangeFlags` above. -/
def ChangeKeywords (ckOk : Nat → Bool) (hdrs : List MsgHdr) : CFResult :=
  if hdrs = [] then
    { visited := [], rewritten := [], streamsOpened := 0, streamClosed := false,
      dbMarkedValid := false, status := .NS_ERROR_INVALID_ARG }
  else
    ChangeKeywordsLoop ckOk hdrs
      { visited := [], rewritten := [], streamsOpened := 1, streamClosed := false,
        dbMarkedValid := false, status := .NS_OK }

/-- Model of `nsMsgBrkMBoxStore::HasSpaceAvailable`, as a function of the
preference, the current mbox file size, the requested space, and the
result of the free-disk-space check.  Mirrors the source: the legacy
cap check runs only when the allow-over-4GB preference is off, and the
disk-space check overwrites the reported result afterwards. -/
def HasSpaceAvailable (allow4GBfolders : Bool) (fileSize aSpaceRequested : Int)
    (diskSpaceAvailable : Bool) : Nsresult × Bool :=
  let diskCheck : Nsresult × Bool :=
    if !diskSpaceAvailable then (.NS_ERROR_FILE_NO_DEVICE_SPACE, false)
    else (.NS_OK, true)
  if !allow4GBfolders then
    let result := decide (fileSize + aSpaceRequested < 0xFFC00000)
    if !result then (.NS_ERROR_FILE_TOO_BIG, result)
    else diskCheck
  else diskCheck

/-- A stream mid-line after successful writes, for the `Finish`
witness. -/
def midStream0 : MboxMsgOutputStream :=
  { mState := .eMidLine
    mStatus := .NS_OK
    mStartFragment := []
    mStartPos := 0
    mCloseInnerWhenDone := false
    mFromLine := envLine0 }

/-! ### Properties -/

theorem splitLine_append {bs l r : List Char} (h : splitLine bs = some (l, r)) :
    bs = l ++ r := by
  induction bs generalizing l r with
  | nil => simp [splitLine] at h
  | cons c cs ih =>
    simp only [splitLine] at h
    split at h
    · rcases h with ⟨rfl, rfl⟩
      simp_all
    · rcases hsp : splitLine cs with _ | ⟨l2, r2⟩ <;> rw [hsp] at h
      · simp at h
      · rcases h with ⟨rfl, rfl⟩
        simp [ih hsp]

theorem splitLine_ne_nil {bs l r : List Char} (h : splitLine bs = some (l, r)) :
    l ≠ [] := by
  induction bs generalizing l r with
  | nil => simp [splitLine] at h
  | cons c cs ih =>
    simp only [splitLine] at h
    split at h
    · rcases h with ⟨rfl, rfl⟩
      simp
    · rcases hsp : splitLine cs with _ | ⟨l2, r2⟩ <;> rw [hsp] at h
      · simp at h
      · rcases h with ⟨rfl, rfl⟩
        simp

theorem splitLine_length {bs l r : List Char} (h : splitLine bs = some (l, r)) :
    r.length < bs.length := by
  have hb := splitLine_append h
  have hl := splitLine_ne_nil h
  subst hb
  simp only [List.length_append]
  have : 0 < l.length := List.length_pos.mpr hl
  omega

/-! ### Basic facts about the line splitter and the escaping decision -/

theorem splitLine_none_iff {bs : List Char} : splitLine bs = none ↔ '\n' ∉ bs := by
  induction bs with
  | nil => simp [splitLine]
  | cons c cs ih =>
    simp only [splitLine]
    by_cases hc : c = '\n'
    · subst hc
      simp
    · rcases hsp : splitLine cs with _ | ⟨l, r⟩ <;> simp_all
      exact fun h2 => hc h2.symm

theorem splitLine_shape {bs l r : List Char} (h : splitLine bs = some (l, r)) :
    ∃ l0, l = l0 ++ ['\n'] ∧ '\n' ∉ l0 := by
  induction bs generalizing l r with
  | nil => simp [splitLine] at h
  | cons c cs ih =>
    simp only [splitLine] at h
    split at h
    · rcases h with ⟨rfl, rfl⟩
      exact ⟨[], by simp_all⟩
    · rcases hsp : splitLine cs with _ | ⟨l2, r2⟩ <;> rw [hsp] at h
      · simp at h
      · rcases h with ⟨rfl, rfl⟩
        obtain ⟨l0, rfl, hnl⟩ := ih hsp
        refine ⟨c :: l0, by simp, ?_⟩
        simp_all
        exact fun h2 => ‹¬c = '\n'› h2.symm

theorem matchSep_doEscape_iff (xs sep : List Char) :
    matchSep xs sep = .eDoEscape ↔ sep <+: xs := by
  induction sep generalizing xs with
  | nil => cases xs <;> simp [matchSep]
  | cons d ds ih =>
    cases xs with
    | nil => simp [matchSep]
    | cons c cs =>
      simp only [matchSep]
      by_cases hc : c = d
      · subst hc
        simp [ih, List.cons_prefix_cons]
      · simp only [if_neg hc, List.cons_prefix_cons]
        constructor
        · intro h
          cases h
        · rintro ⟨h1, h2⟩
          exact absurd h1.symm hc

theorem matchSep_needMore_isPre {xs sep : List Char}
    (h : matchSep xs sep = .eNeedMore) : xs <+: sep ∧ xs.length < sep.length := by
  induction sep generalizing xs with
  | nil => cases xs <;> simp_all [matchSep]
  | cons d ds ih =>
    cases xs with
    | nil => simp
    | cons c cs =>
      simp only [matchSep] at h
      by_cases hc : c = d
      · rw [if_pos hc] at h
        obtain ⟨h1, h2⟩ := ih h
        subst hc
        simpa [List.cons_prefix_cons, Nat.succ_lt_succ_iff] using ⟨h1, h2⟩
      · rw [if_neg hc] at h
        cases h

theorem matchSep_append {xs sep : List Char} (t : List Char)
    (h : matchSep xs sep ≠ .eNeedMore) : matchSep (xs ++ t) sep = matchSep xs sep := by
  induction sep generalizing xs with
  | nil => cases xs <;> simp [matchSep]
  | cons d ds ih =>
    cases xs with
    | nil => simp [matchSep] at h
    | cons c cs =>
      simp only [matchSep, List.cons_append] at h ⊢
      by_cases hc : c = d
      · simp only [if_pos hc] at h ⊢
        exact ih h
      · simp only [if_neg hc]

theorem mem_dropWhile_of_mem {c : Char} {bs : List Char} {p : Char → Bool}
    (hm : c ∈ bs) (hp : p c = false) : c ∈ bs.dropWhile p := by
  induction bs with
  | nil => simp at hm
  | cons b cs ih =>
    rw [List.dropWhile_cons]
    by_cases hb : p b = true
    · rw [if_pos hb]
      rcases List.mem_cons.mp hm with rfl | hm2
      · rw [hb] at hp
        cases hp
      · exact ih hm2
    · rw [if_neg hb]
      exact hm

theorem decide_needMore_no_nl {bs : List Char}
    (h : DecideEscaping bs = .eNeedMore) : '\n' ∉ bs := by
  intro hm
  unfold DecideEscaping at h
  have h2 := (matchSep_needMore_isPre h).1
  have h3 : '\n' ∈ bs.dropWhile (fun c => c = '>') :=
    mem_dropWhile_of_mem hm (by decide)
  have h4 : '\n' ∈ fromSep := h2.subset h3
  revert h4
  decide

theorem decide_doEscape_iff {bs : List Char} :
    DecideEscaping bs = .eDoEscape ↔ specNeedsFromEscape bs = true := by
  unfold DecideEscaping specNeedsFromEscape
  rw [matchSep_doEscape_iff, List.isPrefixOf_iff_prefix]

theorem decide_ne_needMore_of_nl {l : List Char} (hnl : '\n' ∈ l) :
    DecideEscaping l ≠ .eNeedMore := by
  intro h
  exact decide_needMore_no_nl h hnl

theorem decide_append {l : List Char} (t : List Char) (hnl : '\n' ∈ l) :
    DecideEscaping (l ++ t) = DecideEscaping l := by
  unfold DecideEscaping
  have hdl : '\n' ∈ l.dropWhile (fun c => c = '>') :=
    mem_dropWhile_of_mem hnl (by decide)
  have hne : l.dropWhile (fun c => c = '>') ≠ [] := by
    intro h0
    rw [h0] at hdl
    simp at hdl
  rw [List.dropWhile_append]
  rw [if_neg (by simpa [List.isEmpty_iff] using hne)]
  apply matchSep_append
  intro hm
  have h2 := (matchSep_needMore_isPre hm).1
  have h4 : '\n' ∈ fromSep := h2.subset hdl
  revert h4
  decide

/-- An `Emit` on a live stream and an all-succeeding open sink writes
the bytes through unchanged. -/
theorem Emit_ok (s : MboxMsgOutputStream) (k : Sink) (bs : List Char)
    (hs1 : s.mState ≠ .eError) (hs2 : s.mState ≠ .eClosed)
    (hk : k.closed = false) (hsch : k.sched = []) :
    s.Emit k bs = (.NS_OK, s, { k with file := k.file ++ bs }) := by
  rcases k with ⟨f, cl, sch⟩
  simp only at hk hsch
  subst hk hsch
  unfold MboxMsgOutputStream.Emit sinkWrite
  rw [if_neg hs1, if_neg hs2]
  by_cases hb : bs = []
  · subst hb
    simp
  · rw [if_neg hb]
    simp


theorem WriteLoop_consume (count : Nat) :
    ∀ (rest l r : List Char) (s : MboxMsgOutputStream) (k : Sink) (acc : List Char),
      splitLine rest = some (l, r) →
      s.WriteLoop count k acc true rest =
        MboxMsgOutputStream.WriteLoop count { s with mState := .eStartOfLine }
          k (acc ++ l) false r := by
  intro rest
  induction rest with
  | nil => intro l r s k acc h; simp [splitLine] at h
  | cons c rest2 ih =>
    intro l r s k acc h
    simp only [splitLine] at h
    by_cases hc : c = '\n'
    · rw [if_pos hc] at h
      rcases h with ⟨rfl, rfl⟩
      subst hc
      rfl
    · rw [if_neg hc] at h
      rcases hsp : splitLine rest2 with _ | ⟨l2, r2⟩ <;> rw [hsp] at h
      · simp at h
      · rcases h with ⟨rfl, rfl⟩
        rcases rest2 with _ | ⟨d, rest3⟩
        · simp [splitLine] at hsp
        · conv_lhs => rw [MboxMsgOutputStream.WriteLoop.eq_2]
          simp only [Bool.true_eq_false, false_and, if_false]
          rw [if_neg hc]
          rw [ih l2 r s k (acc ++ [c]) hsp]
          simp

theorem WriteLoop_consume_noNl (count : Nat) :
    ∀ (rest : List Char), rest ≠ [] → splitLine rest = none →
    ∀ (s : MboxMsgOutputStream) (k : Sink) (acc : List Char),
      s.WriteLoop count k acc true rest =
        (let (rv, s2, k2) := s.Emit k (acc ++ rest)
         if rv = .NS_OK then (.NS_OK, count, { s2 with mState := .eMidLine }, k2)
         else (rv, 0, s2, k2)) := by
  intro rest
  induction rest with
  | nil => intro h; exact absurd rfl h
  | cons c rest2 ih =>
    intro _ h s k acc
    simp only [splitLine] at h
    by_cases hc : c = '\n'
    · rw [if_pos hc] at h
      cases h
    · rw [if_neg hc] at h
      rcases hsp : splitLine rest2 with _ | ⟨l2, r2⟩ <;> rw [hsp] at h
      · rcases rest2 with _ | ⟨d, rest3⟩
        · conv_lhs => rw [MboxMsgOutputStream.WriteLoop.eq_2]
          simp only [Bool.true_eq_false, false_and, if_false]
          rw [if_neg hc]
        · conv_lhs => rw [MboxMsgOutputStream.WriteLoop.eq_2]
          simp only [Bool.true_eq_false, false_and, if_false]
          rw [if_neg hc]
          rw [ih (by simp) hsp s k (acc ++ [c])]
          simp
      · cases h

theorem decide_nl_cons (t : List Char) :
    DecideEscaping ('\n' :: t) = .eDontEscape := rfl

theorem splitLine_cons_ne_none {c : Char} {rest2 : List Char} (hc : c ≠ '\n')
    (h : splitLine rest2 = none) : splitLine (c :: rest2) = none := by
  simp [splitLine, hc, h]

theorem splitLine_cons_ne_some {c : Char} {rest2 l r : List Char} (hc : c ≠ '\n')
    (h : splitLine rest2 = some (l, r)) : splitLine (c :: rest2) = some (c :: l, r) := by
  simp [splitLine, hc, h]

theorem scanSpec_nil : scanSpec [] = ([], .eStartOfLine, none) := by
  rw [scanSpec]
  split
  · rename_i l r heq
    simp [splitLine] at heq
  · simp

theorem scanSpec_needMore {bs : List Char} (hne : bs ≠ [])
    (h : DecideEscaping bs = .eNeedMore) :
    scanSpec bs = ([], .eStartAwaitingData, some bs) := by
  have hnl : splitLine bs = none := splitLine_none_iff.mpr (decide_needMore_no_nl h)
  rw [scanSpec]
  split
  · rename_i l r heq
    rw [hnl] at heq
    cases heq
  · simp [hne, h]

theorem scanSpec_cons {bs l r : List Char} (h : splitLine bs = some (l, r)) :
    scanSpec bs = (specEscapeLine l ++ (scanSpec r).1, (scanSpec r).2) := by
  rw [scanSpec]
  split
  · rename_i l2 r2 heq
    rw [h] at heq
    simp only [Option.some.injEq, Prod.mk.injEq] at heq
    obtain ⟨rfl, rfl⟩ := heq
    rfl
  · rename_i heq
    rw [h] at heq
    cases heq

theorem scanSpec_mid {bs : List Char} (hne : bs ≠ []) (hnl : splitLine bs = none)
    (hd : DecideEscaping bs ≠ .eNeedMore) :
    scanSpec bs = (specEscapeLine bs, .eMidLine, none) := by
  rw [scanSpec]
  split
  · rename_i l r heq
    rw [hnl] at heq
    cases heq
  · simp [hne, hd]

theorem specEscapeLine_doEscape {l : List Char} (h : DecideEscaping l = .eDoEscape) :
    specEscapeLine l = '>' :: l := by
  unfold specEscapeLine
  rw [if_pos (decide_doEscape_iff.mp h)]

theorem specEscapeLine_other {l : List Char} (h : DecideEscaping l ≠ .eDoEscape) :
    specEscapeLine l = l := by
  unfold specEscapeLine
  rw [if_neg]
  intro h2
  exact h (decide_doEscape_iff.mpr h2)

/-- The escaping decision over the whole remaining input equals the
decision over its first (newline-terminated) line. -/
theorem decide_first_line {bs l r : List Char} (h : splitLine bs = some (l, r)) :
    DecideEscaping bs = DecideEscaping l := by
  obtain ⟨l0, hl, _⟩ := splitLine_shape h
  have hb := splitLine_append h
  have hnl : '\n' ∈ l := by
    rw [hl]
    simp
  rw [hb]
  exact decide_append r hnl

/-- Characterisation of the main scanning loop entered at a line start
over an open, all-succeeding sink: it reports success and the full
count, emits exactly the `scanSpec` bytes after the pending accumulator,
ends in the `scanSpec` state, and stashes the `scanSpec` fragment. -/
theorem WriteLoop_scan (count : Nat) :
    ∀ (n : Nat) (rest : List Char), rest.length ≤ n →
    ∀ (s : MboxMsgOutputStream) (k : Sink) (acc : List Char),
      s.mState = .eStartOfLine → k.closed = false → k.sched = [] →
      s.WriteLoop count k acc false rest =
        (.NS_OK, count,
         { s with mState := (scanSpec rest).2.1,
                  mStartFragment := ((scanSpec rest).2.2).getD s.mStartFragment },
         { k with file := k.file ++ acc ++ (scanSpec rest).1 }) := by
  intro n
  induction n with
  | zero =>
    intro rest hlen s k acc hst hkc hks
    have : rest = [] := List.length_eq_zero.mp (Nat.le_zero.mp hlen)
    subst this
    rw [MboxMsgOutputStream.WriteLoop.eq_1,
        Emit_ok s k acc (by rw [hst]; simp) (by rw [hst]; simp) hkc hks]
    rw [scanSpec]
    simp [splitLine]
    cases s
    simp_all
  | succ n ih =>
    intro rest hlen s k acc hst hkc hks
    rcases rest with _ | ⟨c, rest2⟩
    · rw [MboxMsgOutputStream.WriteLoop.eq_1,
          Emit_ok s k acc (by rw [hst]; simp) (by rw [hst]; simp) hkc hks]
      rw [scanSpec]
      simp [splitLine]
      cases s
      simp_all
    · have hlen2 : rest2.length ≤ n := by
        simp only [List.length_cons] at hlen
        omega
      have hsA : s.mState ≠ MboxWState.eError := by rw [hst]; simp
      have hsB : s.mState ≠ MboxWState.eClosed := by rw [hst]; simp
      conv_lhs => rw [MboxMsgOutputStream.WriteLoop.eq_2]
      rw [if_pos ⟨rfl, hst⟩]
      rcases hdec : DecideEscaping (c :: rest2) with _ | _ | _
      · -- eDoEscape: flush, emit an extra escaping marker, scan the line
        rw [Emit_ok s k acc hsA hsB hkc hks]
        dsimp only
        simp only [reduceIte]
        rw [Emit_ok s _ ['>'] hsA hsB (by simp [hkc]) (by simp [hks])]
        dsimp only
        simp only [reduceIte]
        have hc : c ≠ '\n' := by
          intro h0
          subst h0
          rw [decide_nl_cons] at hdec
          cases hdec
        rw [if_neg hc]
        rcases rest2 with _ | ⟨d, rest3⟩
        · rw [Emit_ok s _ ([] ++ [c]) hsA hsB (by simp [hkc]) (by simp [hks])]
          dsimp only
          simp only [reduceIte]
          rw [scanSpec_mid (by simp) (splitLine_cons_ne_none hc (by rfl))
                (by rw [hdec]; simp),
              specEscapeLine_doEscape hdec]
          cases s
          simp_all
        · rcases hsp2 : splitLine (d :: rest3) with _ | ⟨l2, r2⟩
          · rw [WriteLoop_consume_noNl count (d :: rest3) (by simp) hsp2]
            dsimp only
            rw [Emit_ok s _ (([] ++ [c]) ++ (d :: rest3)) hsA hsB
                  (by simp [hkc]) (by simp [hks])]
            dsimp only
            simp only [reduceIte]
            rw [scanSpec_mid (by simp) (splitLine_cons_ne_none hc hsp2)
                  (by rw [hdec]; simp),
                specEscapeLine_doEscape hdec]
            cases s
            simp_all
          · have hsp3 : splitLine (c :: d :: rest3) = some (c :: l2, r2) :=
              splitLine_cons_ne_some hc hsp2
            have hlen3 : r2.length ≤ n := by
              have := splitLine_length hsp2
              simp only [List.length_cons] at this hlen2 ⊢
              omega
            rw [WriteLoop_consume count (d :: rest3) l2 r2 _ _ ([] ++ [c]) hsp2,
                ih r2 hlen3 _ _ _ rfl (by simp [hkc]) (by simp [hks]),
                scanSpec_cons hsp3,
                specEscapeLine_doEscape (by rw [← decide_first_line hsp3, hdec])]
            cases s
            simp_all
      · -- eDontEscape: scan the line with no extra emission
        dsimp only
        by_cases hc : c = '\n'
        · subst hc
          rw [if_pos rfl]
          rw [ih rest2 hlen2 _ _ _ rfl hkc hks,
              scanSpec_cons (show splitLine ('\n' :: rest2) = some (['\n'], rest2) by
                simp [splitLine]),
              specEscapeLine_other (by rw [decide_nl_cons]; simp)]
          cases s
          simp_all
        · rw [if_neg hc]
          rcases rest2 with _ | ⟨d, rest3⟩
          · rw [Emit_ok s _ (acc ++ [c]) hsA hsB hkc hks]
            dsimp only
            simp only [reduceIte]
            rw [scanSpec_mid (by simp) (splitLine_cons_ne_none hc (by rfl))
                  (by rw [hdec]; simp),
                specEscapeLine_other (by rw [hdec]; simp)]
            cases s
            simp_all
          · rcases hsp2 : splitLine (d :: rest3) with _ | ⟨l2, r2⟩
            · rw [WriteLoop_consume_noNl count (d :: rest3) (by simp) hsp2]
              dsimp only
              rw [Emit_ok s _ ((acc ++ [c]) ++ (d :: rest3)) hsA hsB hkc hks]
              dsimp only
              simp only [reduceIte]
              rw [scanSpec_mid (by simp) (splitLine_cons_ne_none hc hsp2)
                    (by rw [hdec]; simp),
                  specEscapeLine_other (by rw [hdec]; simp)]
              cases s
              simp_all
            · have hsp3 : splitLine (c :: d :: rest3) = some (c :: l2, r2) :=
                splitLine_cons_ne_some hc hsp2
              have hlen3 : r2.length ≤ n := by
                have := splitLine_length hsp2
                simp only [List.length_cons] at this hlen2 ⊢
                omega
              rw [WriteLoop_consume count (d :: rest3) l2 r2 _ _ (acc ++ [c]) hsp2,
                  ih r2 hlen3 _ _ _ rfl hkc hks,
                  scanSpec_cons hsp3,
                  specEscapeLine_other (by rw [← decide_first_line hsp3, hdec]; simp)]
              cases s
              simp_all
      · -- eNeedMore: stash the fragment for the next call
        rw [Emit_ok s k acc hsA hsB hkc hks]
        dsimp only
        simp only [reduceIte]
        rw [scanSpec_needMore (by simp) hdec]
        cases s
        simp_all

/-- Unfolding of the spec-side escaper over a first complete line. -/
theorem specMboxEscape_cons {bs l r : List Char} (h : splitLine bs = some (l, r)) :
    specMboxEscape bs = specEscapeLine l ++ specMboxEscape r := by
  rw [specMboxEscape]
  split
  · rename_i l2 r2 heq
    rw [h] at heq
    simp only [Option.some.injEq, Prod.mk.injEq] at heq
    obtain ⟨rfl, rfl⟩ := heq
    rfl
  · rename_i heq
    rw [h] at heq
    cases heq

/-- Unfolding of the spec-side escaper when no newline remains. -/
theorem specMboxEscape_last {bs : List Char} (h : splitLine bs = none) :
    specMboxEscape bs = specEscapeLine bs := by
  rw [specMboxEscape]
  split
  · rename_i l r heq
    rw [h] at heq
    cases heq
  · rfl

theorem getLast_mem_of_eq {bs : List Char} {a : Char} (h : bs.getLast? = some a) :
    a ∈ bs := List.mem_of_mem_getLast? h

theorem getLast_assemble (l0 r : List Char) (h : r = [] ∨ r.getLast? = some '\n') :
    (l0 ++ '\n' :: r).getLast? = some '\n' := by
  rcases h with rfl | h
  · simp
  · rcases r with _ | ⟨a, as⟩
    · simp
    · rw [List.getLast?_append_of_ne_nil l0 (by simp)]
      rw [show '\n' :: a :: as = ['\n'] ++ a :: as from rfl,
          List.getLast?_append_of_ne_nil ['\n'] (by simp)]
      exact h

/-- Complete description of a line-start scan: the outcome shape is
determined by whether the input ends in a newline, the emitted bytes
together with the stashed fragment always reassemble the spec-side
escaped body, and a stashed fragment is a nonempty undecided line
holding no newline. -/
theorem scanSpec_total (bs : List Char) :
    ((scanSpec bs).2 = (.eStartOfLine, none) ∧ (bs = [] ∨ bs.getLast? = some '\n') ∧
      (scanSpec bs).1 = specMboxEscape bs) ∨
    (∃ f, (scanSpec bs).2 = (.eStartAwaitingData, some f) ∧ bs ≠ [] ∧
      bs.getLast? ≠ some '\n' ∧ '\n' ∉ f ∧ f ≠ [] ∧ DecideEscaping f = .eNeedMore ∧
      (scanSpec bs).1 ++ f = specMboxEscape bs) ∨
    ((scanSpec bs).2 = (.eMidLine, none) ∧ bs ≠ [] ∧ bs.getLast? ≠ some '\n' ∧
      (scanSpec bs).1 = specMboxEscape bs) := by
  have main : ∀ (n : Nat) (bs : List Char), bs.length ≤ n →
      ((scanSpec bs).2 = (.eStartOfLine, none) ∧ (bs = [] ∨ bs.getLast? = some '\n') ∧
        (scanSpec bs).1 = specMboxEscape bs) ∨
      (∃ f, (scanSpec bs).2 = (.eStartAwaitingData, some f) ∧ bs ≠ [] ∧
        bs.getLast? ≠ some '\n' ∧ '\n' ∉ f ∧ f ≠ [] ∧ DecideEscaping f = .eNeedMore ∧
        (scanSpec bs).1 ++ f = specMboxEscape bs) ∨
      ((scanSpec bs).2 = (.eMidLine, none) ∧ bs ≠ [] ∧ bs.getLast? ≠ some '\n' ∧
        (scanSpec bs).1 = specMboxEscape bs) := by
    intro n
    induction n with
    | zero =>
      intro bs hlen
      have : bs = [] := List.length_eq_zero.mp (Nat.le_zero.mp hlen)
      subst this
      left
      rw [scanSpec_nil, specMboxEscape_last (by rfl)]
      simp [specEscapeLine, specNeedsFromEscape, fromSep]
    | succ n ih =>
      intro bs hlen
      rcases hsp : splitLine bs with _ | ⟨l, r⟩
      · have hnl : '\n' ∉ bs := splitLine_none_iff.mp hsp
        by_cases hbs : bs = []
        · subst hbs
          left
          rw [scanSpec_nil, specMboxEscape_last (by rfl)]
          simp [specEscapeLine, specNeedsFromEscape, fromSep]
        · have hne : bs ≠ [] := hbs
          have hlast : bs.getLast? ≠ some '\n' := by
            intro h
            exact hnl (getLast_mem_of_eq h)
          by_cases hd : DecideEscaping bs = .eNeedMore
          · right; left
            refine ⟨bs, ?_, hne, hlast, hnl, hne, hd, ?_⟩
            · rw [scanSpec_needMore hne hd]
            · rw [scanSpec_needMore hne hd, specMboxEscape_last hsp,
                  specEscapeLine_other (by rw [hd]; simp)]
              simp
          · right; right
            rw [scanSpec_mid hne hsp hd, specMboxEscape_last hsp]
            exact ⟨rfl, hne, hlast, rfl⟩
      · have hb := splitLine_append hsp
        have hlne := splitLine_ne_nil hsp
        have hlenr : r.length ≤ n := by
          have := splitLine_length hsp
          omega
        have hbne : bs ≠ [] := by
          rw [hb]
          simp [hlne]
        obtain ⟨l0, hl0, _⟩ := splitLine_shape hsp
        rw [scanSpec_cons hsp, specMboxEscape_cons hsp]
        rcases ih r hlenr with ⟨h2, hend, hout⟩ | ⟨f, h2, hne, hend, hfn, hfe, hfd, hout⟩ |
          ⟨h2, hne, hend, hout⟩
        · left
          refine ⟨by simpa using h2, ?_, by simp [hout]⟩
          right
          rw [hb, hl0]
          rw [show l0 ++ ['\n'] ++ r = l0 ++ '\n' :: r by simp]
          exact getLast_assemble l0 r hend
        · right; left
          refine ⟨f, by simpa using h2, hbne, ?_, hfn, hfe, hfd, by simp [← hout]⟩
          rw [hb, List.getLast?_append_of_ne_nil l hne]
          exact hend
        · right; right
          refine ⟨by simpa using h2, hbne, ?_, by simp [hout]⟩
          rw [hb, List.getLast?_append_of_ne_nil l hne]
          exact hend
  exact main bs.length bs le_rfl

/-- On a live stream over an open sink, an `Emit` either succeeds (with
the stream untouched and the bytes appended) or fails with a non-OK
status latched into the error state, leaving the file unchanged. -/
theorem Emit_cases (s : MboxMsgOutputStream) (k : Sink) (bs : List Char)
    (hsA : s.mState ≠ .eError) (hsB : s.mState ≠ .eClosed)
    (hkc : k.closed = false) :
    (∃ k1, s.Emit k bs = (.NS_OK, s, k1) ∧ k1.closed = false ∧
      k1.file = k.file ++ bs ∧ k1.file.length = k.file.length + bs.length) ∨
    (∃ rv k1, s.Emit k bs = (rv, { s with mState := .eError, mStatus := rv }, k1) ∧
      rv ≠ .NS_OK ∧ k1.closed = false ∧ k1.file = k.file) := by
  unfold MboxMsgOutputStream.Emit sinkWrite
  rw [if_neg hsA, if_neg hsB]
  by_cases hb : bs = []
  · subst hb
    left
    exact ⟨k, by simp, hkc, by simp, by simp⟩
  · rw [if_neg hb, if_neg (by rw [hkc]; simp)]
    rcases hsch : k.sched with _ | ⟨rv, rest⟩
    · left
      exact ⟨_, rfl, by simp [hkc], by simp, by simp⟩
    · dsimp only
      by_cases hrv : rv = .NS_OK
      · rw [if_pos hrv]
        left
        exact ⟨_, rfl, by simp [hkc], by simp, by simp⟩
      · rw [if_neg hrv]
        rcases hrv2 : rv with _ | _ | _ | _ | _ | _ | _ | code
        · exact absurd hrv2 hrv
        all_goals
          right
          exact ⟨_, _, rfl, by simp [hrv2] at hrv ⊢, by simp [hkc], by simp⟩

/-- Running `InternalClose` on a not-yet-closed stream with a valid recorded
start position over an open sink: truncates the file back to the start
position, closes the inner sink if owned, reports success. -/
theorem InternalClose_run (s : MboxMsgOutputStream) (k : Sink)
    (hsB : s.mState ≠ .eClosed) (hkc : k.closed = false)
    (hpos : 0 ≤ s.mStartPos) :
    s.InternalClose k =
      (.NS_OK, { s with mState := .eClosed },
       { k with file := k.file.take s.mStartPos.toNat,
                closed := s.mCloseInnerWhenDone }) := by
  unfold MboxMsgOutputStream.InternalClose sinkTruncateTo sinkClose
  rw [if_neg hsB, if_neg (by omega)]
  rcases k with ⟨f, cl, sch⟩
  simp only at hkc
  subst hkc
  rcases hio : s.mCloseInnerWhenDone <;> simp [hio]

theorem getLast_ne_of_not_mem {f : List Char} (h : '\n' ∉ f) :
    f.getLast? ≠ some '\n' :=
  fun h2 => h (getLast_mem_of_eq h2)

/-- Running `Finish()` over an open, all-succeeding sink, from any of the three
live writing states: emits the final-EOL fix-up (when mid-line), the
pending fragment plus its EOL fix-up (when awaiting data), then the
blank separator line; closes the inner sink exactly when owned; ends
`Closed` and reports success. -/
theorem Finish_run_ok (s : MboxMsgOutputStream) (k : Sink)
    (hst : s.mState = .eStartOfLine ∨ s.mState = .eMidLine ∨
      s.mState = .eStartAwaitingData)
    (hkc : k.closed = false) (hks : k.sched = []) :
    s.Finish k =
      (.NS_OK, { s with mState := .eClosed },
       { k with
         file := k.file ++ (if s.mState = .eMidLine then crlf else []) ++
           (if s.mState = .eStartAwaitingData then
             s.mStartFragment ++
               (if s.mStartFragment.getLast? ≠ some '\n' then crlf else [])
            else []) ++ crlf,
         closed := s.mCloseInnerWhenDone }) := by
  have hsA : s.mState ≠ .eError := by rcases hst with h | h | h <;> rw [h] <;> simp
  have hsB : s.mState ≠ .eClosed := by rcases hst with h | h | h <;> rw [h] <;> simp
  unfold MboxMsgOutputStream.Finish
  rw [if_neg hsB, if_neg hsA]
  rcases hst with hst | hst | hst
  · rw [if_neg (show ¬(s.mState = MboxWState.eMidLine) by rw [hst]; simp)]
    dsimp only
    rw [if_neg (show ¬(Nsresult.NS_OK = Nsresult.NS_OK ∧
        s.mState = MboxWState.eStartAwaitingData) by simp [hst])]
    dsimp only
    simp only [reduceIte]
    rw [Emit_ok s k crlf hsA hsB hkc hks]
    dsimp only
    simp only [ne_eq, reduceIte]
    unfold sinkClose
    rcases hio : s.mCloseInnerWhenDone
    · simp [hst, hkc]
    · simp [hst, hkc]
  · rw [if_pos hst, Emit_ok s k crlf hsA hsB hkc hks]
    dsimp only
    rw [if_neg (show ¬(Nsresult.NS_OK = Nsresult.NS_OK ∧
        s.mState = MboxWState.eStartAwaitingData) by simp [hst])]
    dsimp only
    simp only [reduceIte]
    rw [Emit_ok s _ crlf hsA hsB (by simp [hkc]) (by simp [hks])]
    dsimp only
    simp only [ne_eq, reduceIte]
    unfold sinkClose
    rcases hio : s.mCloseInnerWhenDone
    · simp [hst, hkc]
    · simp [hst, hkc]
  · rw [if_neg (show ¬(s.mState = MboxWState.eMidLine) by rw [hst]; simp)]
    dsimp only
    rw [if_pos (show Nsresult.NS_OK = Nsresult.NS_OK ∧
        s.mState = MboxWState.eStartAwaitingData from ⟨rfl, hst⟩)]
    rw [Emit_ok s k s.mStartFragment hsA hsB hkc hks]
    dsimp only
    simp only [reduceIte]
    by_cases hg : s.mStartFragment.getLast? = some '\n'
    · rw [if_neg (not_not_intro hg)]
      dsimp only
      simp only [reduceIte]
      rw [Emit_ok s _ crlf hsA hsB (by simp [hkc]) (by simp [hks])]
      dsimp only
      simp only [ne_eq, reduceIte]
      unfold sinkClose
      rcases hio : s.mCloseInnerWhenDone
      · simp [hst, hkc, hg]
      · simp [hst, hkc, hg]
    · rw [if_pos hg]
      rw [Emit_ok s _ crlf hsA hsB (by simp [hkc]) (by simp [hks])]
      dsimp only
      simp only [reduceIte]
      rw [Emit_ok s _ crlf hsA hsB (by simp [hkc]) (by simp [hks])]
      dsimp only
      simp only [ne_eq, reduceIte]
      unfold sinkClose
      rcases hio : s.mCloseInnerWhenDone
      · simp [hst, hkc, hg]
      · simp [hst, hkc, hg]

/-- A single `Write()` call of a nonempty body on a freshly constructed
stream over an open, all-succeeding sink: reports the full count,
emits the envelope line followed by the scanned body. -/
theorem Write_fresh (s : MboxMsgOutputStream) (k : Sink) (body : List Char)
    (hst : s.mState = .eInitial) (hbody : body ≠ [])
    (hkc : k.closed = false) (hks : k.sched = []) :
    s.Write k body =
      (.NS_OK, body.length,
       { s with mState := (scanSpec body).2.1,
                mStartFragment := ((scanSpec body).2.2).getD s.mStartFragment },
       { k with file := k.file ++ s.mFromLine ++ (scanSpec body).1 }) := by
  unfold MboxMsgOutputStream.Write
  rw [if_neg (by simp [hbody]), if_pos hst,
      Emit_ok s k s.mFromLine (by rw [hst]; simp) (by rw [hst]; simp) hkc hks]
  dsimp only
  simp only [ne_eq, reduceIte]
  rw [if_neg (by simp)]
  rw [WriteLoop_scan body.length body.length body le_rfl _ _ []
      (by simp) (by simp [hkc]) (by simp [hks])]
  simp

/-- C4: the output escaping rule.  Writing a whole message body in one
`Write()` call on a fresh stream and then committing with `Finish()`
puts into the mbox exactly: the envelope line, then the body with one
extra `>` prefixed to every line beginning with zero-or-more `>`
followed by `From ` and every other byte unchanged, then a CRLF added
only when the body lacked a final newline, then the blank separator
line. -/
theorem C4_escaping_rule (k : Sink) (cIWD : Bool) (fromLine body : List Char)
    (hbody : body ≠ []) (hkc : k.closed = false) (hks : k.sched = []) :
    (((MboxMsgOutputStream.mk0 k cIWD fromLine).Write k body).2.2.1.Finish
      ((MboxMsgOutputStream.mk0 k cIWD fromLine).Write k body).2.2.2).2.2.file =
      k.file ++ fromLine ++ specMboxEscape body ++
        (if body.getLast? = some '\n' then [] else crlf) ++ crlf := by
  rw [Write_fresh _ _ body rfl hbody hkc hks]
  dsimp only
  rcases scanSpec_total body with ⟨h2, hend, hout⟩ |
    ⟨f, h2, hne, hend, hfn, hfe, hfd, hout⟩ | ⟨h2, hne, hend, hout⟩
  · rw [Finish_run_ok _ _ (by left; rw [h2]) (by simp [hkc]) (by simp [hks])]
    rcases hend with rfl | hend
    · exact absurd rfl hbody
    · simp [h2, hout, hend, MboxMsgOutputStream.mk0]
  · rw [Finish_run_ok _ _ (by right; right; rw [h2]) (by simp [hkc]) (by simp [hks])]
    simp only [h2]
    rw [if_neg hend]
    simp [MboxMsgOutputStream.mk0, getLast_ne_of_not_mem hfn, ← hout]
  · rw [Finish_run_ok _ _ (by right; left; rw [h2]) (by simp [hkc]) (by simp [hks])]
    simp only [h2]
    rw [if_neg hend]
    simp [MboxMsgOutputStream.mk0, hout]

/-- Rollback of a failed emit inside `Finish()`: helper applying
`InternalClose` to an error-latched stream over an open sink holding an
extension of the original file. -/
theorem finishRollback (s : MboxMsgOutputStream) (k1 : Sink) (rv : Nsresult)
    (t : List Char) (kfile : List Char)
    (hk1c : k1.closed = false) (hk1f : k1.file = kfile ++ t)
    (hpos0 : 0 ≤ s.mStartPos) (hpos : s.mStartPos.toNat ≤ kfile.length) :
    ({ s with mState := MboxWState.eError, mStatus := rv } :
        MboxMsgOutputStream).InternalClose k1 =
      (.NS_OK, { s with mState := .eClosed, mStatus := rv },
       { k1 with file := kfile.take s.mStartPos.toNat,
                 closed := s.mCloseInnerWhenDone }) := by
  rw [InternalClose_run _ _ (by simp) hk1c (by simpa using hpos0)]
  simp [hk1f, List.take_append_of_le_length hpos]

/-- C5: `Finish()` postcondition.  From any live writing state it
appends a terminating CRLF exactly when the written message did not
already end with a newline (flushing any buffered undecided fragment,
which never holds a newline, with a CRLF after it), then exactly one
blank separator CRLF; it closes the inner sink when owned and leaves
the stream `Closed`; and if any of these final writes fails, the
rollback of `Close()` truncates the file back to the recorded start
position. -/
theorem C5_finish_postcondition (s : MboxMsgOutputStream) (k : Sink)
    (hst : s.mState = .eStartOfLine ∨ s.mState = .eMidLine ∨
      s.mState = .eStartAwaitingData)
    (hfrag : s.mState = .eStartAwaitingData →
      s.mStartFragment ≠ [] ∧ '\n' ∉ s.mStartFragment)
    (hkc : k.closed = false)
    (hpos0 : 0 ≤ s.mStartPos) (hpos : s.mStartPos.toNat ≤ k.file.length) :
    (s.Finish k).2.1.mState = .eClosed ∧
    ((s.Finish k).1 = .NS_OK →
      (s.Finish k).2.2.file =
        k.file ++ (if s.mState = .eMidLine then crlf else []) ++
          (if s.mState = .eStartAwaitingData then s.mStartFragment ++ crlf
           else []) ++ crlf ∧
      (s.Finish k).2.2.closed = s.mCloseInnerWhenDone) ∧
    ((s.Finish k).1 ≠ .NS_OK →
      (s.Finish k).2.2.file = k.file.take s.mStartPos.toNat ∧
      (s.Finish k).2.2.closed = s.mCloseInnerWhenDone) := by
  have hsA : s.mState ≠ .eError := by rcases hst with h | h | h <;> rw [h] <;> simp
  have hsB : s.mState ≠ .eClosed := by rcases hst with h | h | h <;> rw [h] <;> simp
  unfold MboxMsgOutputStream.Finish
  rw [if_neg hsB, if_neg hsA]
  rcases hst with hst | hst | hst
  · -- eStartOfLine: only the separator emit
    rw [if_neg (show ¬(s.mState = MboxWState.eMidLine) by rw [hst]; simp)]
    dsimp only
    rw [if_neg (show ¬(Nsresult.NS_OK = Nsresult.NS_OK ∧
        s.mState = MboxWState.eStartAwaitingData) by simp [hst])]
    dsimp only
    simp only [reduceIte]
    rcases Emit_cases s k crlf hsA hsB hkc with ⟨k1, heq, hk1c, hk1f, _⟩ |
      ⟨rv, k1, heq, hrv, hk1c, hk1f⟩
    · rw [heq]
      dsimp only
      simp only [ne_eq, reduceIte]
      unfold sinkClose
      rcases hio : s.mCloseInnerWhenDone <;>
        exact ⟨by simp [hio, hk1c], fun _ => ⟨by simp [hio, hk1c, hk1f, hst],
          by simp [hio, hk1c]⟩, fun h => absurd (by simp [hio, hk1c]) h⟩
    · rw [heq]
      dsimp only
      rw [if_pos (show rv ≠ Nsresult.NS_OK from hrv),
          finishRollback s k1 rv [] k.file hk1c (by simp [hk1f]) hpos0 hpos]
      exact ⟨by simp, fun h => absurd h hrv, fun _ => ⟨by simp, by simp⟩⟩
  · -- eMidLine: the EOL fix-up then the separator
    rw [if_pos hst]
    rcases Emit_cases s k crlf hsA hsB hkc with ⟨k1, heq, hk1c, hk1f, _⟩ |
      ⟨rv, k1, heq, hrv, hk1c, hk1f⟩
    · rw [heq]
      dsimp only
      rw [if_neg (show ¬(Nsresult.NS_OK = Nsresult.NS_OK ∧
          s.mState = MboxWState.eStartAwaitingData) by simp [hst])]
      dsimp only
      simp only [reduceIte]
      rcases Emit_cases s k1 crlf hsA hsB hk1c with ⟨k2, heq2, hk2c, hk2f, _⟩ |
        ⟨rv2, k2, heq2, hrv2, hk2c, hk2f⟩
      · rw [heq2]
        dsimp only
        simp only [ne_eq, reduceIte]
        unfold sinkClose
        rcases hio : s.mCloseInnerWhenDone <;>
          exact ⟨by simp [hio, hk2c], fun _ => ⟨by simp [hio, hk2c, hk2f, hk1f, hst],
            by simp [hio, hk2c]⟩, fun h => absurd (by simp [hio, hk2c]) h⟩
      · rw [heq2]
        dsimp only
        rw [if_pos (show ¬(rv2 = Nsresult.NS_OK) from hrv2),
            finishRollback s k2 rv2 crlf k.file hk2c (by simp [hk2f, hk1f]) hpos0 hpos]
        exact ⟨by simp, fun h => absurd h hrv2, fun _ => ⟨by simp, by simp⟩⟩
    · rw [heq]
      dsimp only
      rw [if_neg (show ¬(rv = Nsresult.NS_OK ∧
          ({ s with mState := MboxWState.eError, mStatus := rv } :
            MboxMsgOutputStream).mState = MboxWState.eStartAwaitingData) from
        fun h => hrv h.1)]
      dsimp only
      rw [if_neg (show ¬(rv = Nsresult.NS_OK) from hrv)]
      dsimp only
      rw [if_pos (show ¬(rv = Nsresult.NS_OK) from hrv),
          finishRollback s k1 rv [] k.file hk1c (by simp [hk1f]) hpos0 hpos]
      exact ⟨by simp, fun h => absurd h hrv, fun _ => ⟨by simp, by simp⟩⟩
  · -- eStartAwaitingData: fragment flush, EOL fix-up, separator
    obtain ⟨hfne, hfnl⟩ := hfrag hst
    have hg : s.mStartFragment.getLast? ≠ some '\n' := getLast_ne_of_not_mem hfnl
    rw [if_neg (show ¬(s.mState = MboxWState.eMidLine) by rw [hst]; simp)]
    dsimp only
    rw [if_pos (show Nsresult.NS_OK = Nsresult.NS_OK ∧
        s.mState = MboxWState.eStartAwaitingData from ⟨rfl, hst⟩)]
    rcases Emit_cases s k s.mStartFragment hsA hsB hkc with ⟨k1, heq, hk1c, hk1f, _⟩ |
      ⟨rv, k1, heq, hrv, hk1c, hk1f⟩
    · rw [heq]
      dsimp only
      simp only [reduceIte]
      rw [if_pos hg]
      rcases Emit_cases s k1 crlf hsA hsB hk1c with ⟨k2, heq2, hk2c, hk2f, _⟩ |
        ⟨rv2, k2, heq2, hrv2, hk2c, hk2f⟩
      · rw [heq2]
        dsimp only
        simp only [reduceIte]
        rcases Emit_cases s k2 crlf hsA hsB hk2c with ⟨k3, heq3, hk3c, hk3f, _⟩ |
          ⟨rv3, k3, heq3, hrv3, hk3c, hk3f⟩
        · rw [heq3]
          dsimp only
          simp only [ne_eq, reduceIte]
          unfold sinkClose
          rcases hio : s.mCloseInnerWhenDone <;>
            exact ⟨by simp [hio, hk3c], fun _ => ⟨by simp [hio, hk3c, hk3f, hk2f, hk1f, hst],
              by simp [hio, hk3c]⟩, fun h => absurd (by simp [hio, hk3c]) h⟩
        · rw [heq3]
          dsimp only
          rw [if_pos (show ¬(rv3 = Nsresult.NS_OK) from hrv3),
              finishRollback s k3 rv3 (s.mStartFragment ++ crlf) k.file hk3c
                (by simp [hk3f, hk2f, hk1f]) hpos0 hpos]
          exact ⟨by simp, fun h => absurd h hrv3, fun _ => ⟨by simp, by simp⟩⟩
      · rw [heq2]
        dsimp only
        rw [if_neg (show ¬(rv2 = Nsresult.NS_OK) from hrv2)]
        dsimp only
        rw [if_pos (show ¬(rv2 = Nsresult.NS_OK) from hrv2),
            finishRollback s k2 rv2 s.mStartFragment k.file hk2c
              (by simp [hk2f, hk1f]) hpos0 hpos]
        exact ⟨by simp, fun h => absurd h hrv2, fun _ => ⟨by simp, by simp⟩⟩
    · rw [heq]
      dsimp only
      rw [if_neg (show ¬(rv = Nsresult.NS_OK) from hrv)]
      dsimp only
      rw [if_neg (show ¬(rv = Nsresult.NS_OK) from hrv)]
      dsimp only
      rw [if_pos (show ¬(rv = Nsresult.NS_OK) from hrv),
          finishRollback s k1 rv [] k.file hk1c (by simp [hk1f]) hpos0 hpos]
      exact ⟨by simp, fun h => absurd h hrv, fun _ => ⟨by simp, by simp⟩⟩

theorem writeFrame_trans {s k s1 k1 s2 k2}
    (h1 : writeFrame s k s1 k1) (h2 : writeFrame s1 k1 s2 k2) :
    writeFrame s k s2 k2 := by
  obtain ⟨a1, b1, c1, d1, t1, e1⟩ := h1
  obtain ⟨a2, b2, c2, d2, t2, e2⟩ := h2
  exact ⟨a2.trans a1, b2.trans b1, c2, d2.trans d1, t1 ++ t2,
    by rw [e2, e1, List.append_assoc]⟩

theorem Emit_writeFrame (s : MboxMsgOutputStream) (k : Sink) (bs : List Char) :
    writeFrame s k (s.Emit k bs).2.1 (s.Emit k bs).2.2 := by
  unfold MboxMsgOutputStream.Emit sinkWrite writeFrame
  by_cases h1 : s.mState = .eError
  · rw [if_pos h1]
    exact ⟨rfl, rfl, by rw [h1]; simp, rfl, [], by simp⟩
  · rw [if_neg h1]
    by_cases h2 : s.mState = .eClosed
    · rw [if_pos h2]
      exact ⟨rfl, rfl, by simp, rfl, [], by simp⟩
    · rw [if_neg h2]
      by_cases hb : bs = []
      · rw [if_pos hb]
        exact ⟨rfl, rfl, h2, rfl, [], by simp⟩
      · rw [if_neg hb]
        by_cases hkc : k.closed = true
        · rw [if_pos hkc]
          dsimp only
          exact ⟨rfl, rfl, by simp, rfl, [], by simp⟩
        · rw [if_neg hkc]
          rcases k.sched with _ | ⟨rv, rest⟩
          · dsimp only
            exact ⟨rfl, rfl, h2, rfl, bs, by simp⟩
          · dsimp only
            by_cases hrv : rv = .NS_OK
            · rw [if_pos hrv]
              dsimp only
              exact ⟨rfl, rfl, h2, rfl, bs, by simp⟩
            · rw [if_neg hrv]
              rcases hrv2 : rv with _ | _ | _ | _ | _ | _ | _ | code
              · exact absurd hrv2 hrv
              all_goals exact ⟨rfl, rfl, by simp, rfl, [], by simp⟩

theorem writeFrame_self (s : MboxMsgOutputStream) (k : Sink)
    (h : s.mState ≠ .eClosed) : writeFrame s k s k :=
  ⟨rfl, rfl, h, rfl, [], by simp⟩

theorem writeFrame_setState (s : MboxMsgOutputStream) (k : Sink) (st : MboxWState)
    (h : st ≠ .eClosed) : writeFrame s k { s with mState := st } k :=
  ⟨rfl, rfl, by simp [h], rfl, [], by simp⟩

theorem writeFrame_setStateFrag (s : MboxMsgOutputStream) (k : Sink)
    (st : MboxWState) (f : List Char) (h : st ≠ .eClosed) :
    writeFrame s k { s with mState := st, mStartFragment := f } k :=
  ⟨rfl, rfl, by simp [h], rfl, [], by simp⟩

theorem WriteLoop_writeFrame (count : Nat) :
    ∀ (rest : List Char) (s : MboxMsgOutputStream) (k : Sink) (acc : List Char)
      (inLine : Bool),
      writeFrame s k (s.WriteLoop count k acc inLine rest).2.2.1
        (s.WriteLoop count k acc inLine rest).2.2.2 := by
  intro rest
  induction rest with
  | nil =>
    intro s k acc inLine
    rw [MboxMsgOutputStream.WriteLoop.eq_1]
    have hE := Emit_writeFrame s k acc
    rcases hq : s.Emit k acc with ⟨rv, s1, k1⟩
    rw [hq] at hE
    dsimp only at hE
    dsimp only
    by_cases hrv : rv = .NS_OK
    · rw [if_pos hrv]
      exact hE
    · rw [if_neg hrv]
      exact hE
  | cons c rest2 ih =>
    intro s k acc inLine
    rw [MboxMsgOutputStream.WriteLoop.eq_2]
    by_cases hif : inLine = false ∧ s.mState = .eStartOfLine
    · rw [if_pos hif]
      rcases hdec : DecideEscaping (c :: rest2) with _ | _ | _
      · -- eDoEscape
        have hE := Emit_writeFrame s k acc
        rcases hq : s.Emit k acc with ⟨rv, s1, k1⟩
        rw [hq] at hE
        dsimp only at hE
        dsimp only
        by_cases hrv : rv = .NS_OK
        · rw [if_pos hrv]
          have hE2 := Emit_writeFrame s1 k1 ['>']
          rcases hq2 : s1.Emit k1 ['>'] with ⟨rv2, s2, k2⟩
          rw [hq2] at hE2
          dsimp only at hE2
          dsimp only
          by_cases hrv2 : rv2 = .NS_OK
          · rw [if_pos hrv2]
            dsimp only
            have hpre := writeFrame_trans hE hE2
            by_cases hc : c = '\n'
            · rw [if_pos hc]
              exact writeFrame_trans hpre (writeFrame_trans
                (writeFrame_setState s2 k2 _ (by simp)) (ih _ _ _ _))
            · rw [if_neg hc]
              rcases rest2 with _ | ⟨d, rest3⟩
              · have hE3 := Emit_writeFrame s2 k2 ([] ++ [c])
                rcases hq3 : s2.Emit k2 ([] ++ [c]) with ⟨rv3, s3, k3⟩
                rw [hq3] at hE3
                dsimp only at hE3
                dsimp only
                by_cases hrv3 : rv3 = .NS_OK
                · rw [if_pos hrv3]
                  exact writeFrame_trans hpre (writeFrame_trans hE3
                    (writeFrame_setState s3 k3 _ (by simp)))
                · rw [if_neg hrv3]
                  exact writeFrame_trans hpre hE3
              · exact writeFrame_trans hpre (ih _ _ _ _)
          · rw [if_neg hrv2]
            dsimp only
            exact writeFrame_trans hE hE2
        · rw [if_neg hrv]
          dsimp only
          exact hE
      · -- eDontEscape
        dsimp only
        by_cases hc : c = '\n'
        · rw [if_pos hc]
          exact writeFrame_trans (writeFrame_setState s k _ (by simp)) (ih _ _ _ _)
        · rw [if_neg hc]
          rcases rest2 with _ | ⟨d, rest3⟩
          · have hE3 := Emit_writeFrame s k (acc ++ [c])
            rcases hq3 : s.Emit k (acc ++ [c]) with ⟨rv3, s3, k3⟩
            rw [hq3] at hE3
            dsimp only at hE3
            dsimp only
            by_cases hrv3 : rv3 = .NS_OK
            · rw [if_pos hrv3]
              exact writeFrame_trans hE3 (writeFrame_setState s3 k3 _ (by simp))
            · rw [if_neg hrv3]
              exact hE3
          · exact ih _ _ _ _
      · -- eNeedMore
        have hE := Emit_writeFrame s k acc
        rcases hq : s.Emit k acc with ⟨rv, s1, k1⟩
        rw [hq] at hE
        dsimp only at hE
        dsimp only
        by_cases hrv : rv = .NS_OK
        · rw [if_pos hrv]
          exact writeFrame_trans hE (writeFrame_setStateFrag s1 k1 _ _ (by simp))
        · rw [if_neg hrv]
          exact hE
    · rw [if_neg hif]
      dsimp only
      by_cases hc : c = '\n'
      · rw [if_pos hc]
        exact writeFrame_trans (writeFrame_setState s k _ (by simp)) (ih _ _ _ _)
      · rw [if_neg hc]
        rcases rest2 with _ | ⟨d, rest3⟩
        · have hE3 := Emit_writeFrame s k (acc ++ [c])
          rcases hq3 : s.Emit k (acc ++ [c]) with ⟨rv3, s3, k3⟩
          rw [hq3] at hE3
          dsimp only at hE3
          dsimp only
          by_cases hrv3 : rv3 = .NS_OK
          · rw [if_pos hrv3]
            exact writeFrame_trans hE3 (writeFrame_setState s3 k3 _ (by simp))
          · rw [if_neg hrv3]
            exact hE3
        · exact ih _ _ _ _

theorem writeFrame_setFrag (s : MboxMsgOutputStream) (k : Sink) (f : List Char)
    (h : s.mState ≠ .eClosed) :
    writeFrame s k { s with mStartFragment := f } k :=
  ⟨rfl, rfl, by simpa using h, rfl, [], by simp⟩

theorem Write_writeFrame (s : MboxMsgOutputStream) (k : Sink) (buf : List Char)
    (hs : s.mState ≠ .eClosed) :
    writeFrame s k (s.Write k buf).2.2.1 (s.Write k buf).2.2.2 := by
  unfold MboxMsgOutputStream.Write
  by_cases hb : buf.length = 0
  · rw [if_pos hb]
    exact writeFrame_self s k hs
  · rw [if_neg hb]
    by_cases hini : s.mState = .eInitial
    · rw [if_pos hini]
      have hE := Emit_writeFrame s k s.mFromLine
      rcases hq : s.Emit k s.mFromLine with ⟨rv, s1, k1⟩
      rw [hq] at hE
      dsimp only at hE
      dsimp only
      by_cases hrv : rv = .NS_OK
      · rw [if_pos hrv]
        dsimp only
        rw [if_neg (show ¬(Nsresult.NS_OK ≠ Nsresult.NS_OK) by simp)]
        have hpre : writeFrame s k { s1 with mState := MboxWState.eStartOfLine } k1 :=
          writeFrame_trans hE (writeFrame_setState s1 k1 _ (by simp))
        by_cases hsad : ({ s1 with mState := MboxWState.eStartOfLine } :
            MboxMsgOutputStream).mState = .eStartAwaitingData
        · simp at hsad
        · rw [if_neg hsad]
          exact writeFrame_trans hpre (WriteLoop_writeFrame _ _ _ _ _ _)
      · rw [if_neg hrv]
        dsimp only
        rw [if_pos (show rv ≠ Nsresult.NS_OK from hrv)]
        exact hE
    · rw [if_neg hini]
      dsimp only
      rw [if_neg (show ¬(Nsresult.NS_OK ≠ Nsresult.NS_OK) by simp)]
      by_cases hsad : s.mState = .eStartAwaitingData
      · rw [if_pos hsad]
        rcases hA : awaitLoop s.mStartFragment buf with frag2 | ⟨doEsc, frag2, rest⟩
        · dsimp only
          exact writeFrame_setFrag s k frag2 hs
        · dsimp only
          rcases doEsc
          · rw [if_neg (show ¬((false : Bool) = true) by simp)]
            dsimp only
            rw [if_neg (show ¬(Nsresult.NS_OK ≠ Nsresult.NS_OK) by simp)]
            have hE3 := Emit_writeFrame s k frag2
            rcases hq3 : s.Emit k frag2 with ⟨rv3, s3, k3⟩
            rw [hq3] at hE3
            dsimp only at hE3
            dsimp only
            by_cases hrv3 : rv3 = .NS_OK
            · rw [if_neg (show ¬(rv3 ≠ Nsresult.NS_OK) by simp [hrv3])]
              by_cases hg : frag2.getLast? ≠ some '\n'
              · rw [if_pos hg]
                exact writeFrame_trans hE3 (writeFrame_trans
                  (writeFrame_setStateFrag _ _ _ [] (by simp))
                  (WriteLoop_writeFrame _ _ _ _ _ _))
              · rw [if_neg hg]
                exact writeFrame_trans hE3 (writeFrame_trans
                  (writeFrame_setFrag s3 k3 [] hE3.2.2.1)
                  (WriteLoop_writeFrame _ _ _ _ _ _))
            · rw [if_pos (show rv3 ≠ Nsresult.NS_OK from hrv3)]
              exact hE3
          · rw [if_pos (show (true : Bool) = true from rfl)]
            have hE2 := Emit_writeFrame s k ['>']
            rcases hq2 : s.Emit k ['>'] with ⟨rv2, s2, k2⟩
            rw [hq2] at hE2
            dsimp only at hE2
            dsimp only
            by_cases hrv2 : rv2 = .NS_OK
            · rw [if_neg (show ¬(rv2 ≠ Nsresult.NS_OK) by simp [hrv2])]
              have hE3 := Emit_writeFrame s2 k2 frag2
              rcases hq3 : s2.Emit k2 frag2 with ⟨rv3, s3, k3⟩
              rw [hq3] at hE3
              dsimp only at hE3
              dsimp only
              by_cases hrv3 : rv3 = .NS_OK
              · rw [if_neg (show ¬(rv3 ≠ Nsresult.NS_OK) by simp [hrv3])]
                by_cases hg : frag2.getLast? ≠ some '\n'
                · rw [if_pos hg]
                  exact writeFrame_trans hE2 (writeFrame_trans hE3 (writeFrame_trans
                    (writeFrame_setStateFrag _ _ _ [] (by simp))
                    (WriteLoop_writeFrame _ _ _ _ _ _)))
                · rw [if_neg hg]
                  exact writeFrame_trans hE2 (writeFrame_trans hE3 (writeFrame_trans
                    (writeFrame_setFrag s3 k3 [] hE3.2.2.1)
                    (WriteLoop_writeFrame _ _ _ _ _ _)))
              · rw [if_pos (show rv3 ≠ Nsresult.NS_OK from hrv3)]
                exact writeFrame_trans hE2 hE3
            · rw [if_pos (show rv2 ≠ Nsresult.NS_OK from hrv2)]
              exact hE2
      · rw [if_neg hsad]
        exact WriteLoop_writeFrame _ _ _ _ _ _

theorem writeMany_writeFrame (chunks : List (List Char)) :
    ∀ (s : MboxMsgOutputStream) (k : Sink), s.mState ≠ .eClosed →
      writeFrame s k (writeMany s k chunks).1 (writeMany s k chunks).2 := by
  induction chunks with
  | nil =>
    intro s k hs
    exact writeFrame_self s k hs
  | cons c cs ih =>
    intro s k hs
    rw [writeMany]
    have hW := Write_writeFrame s k c hs
    rcases hq : s.Write k c with ⟨rv, n, s1, k1⟩
    rw [hq] at hW
    dsimp only at hW
    dsimp only
    exact writeFrame_trans hW (ih s1 k1 hW.2.2.1)

/-- C2: rollback atomicity.  For every prior file content, any sequence
of `Write()` calls under any chunking, and no `Finish()`, `Close()`
restores the underlying file to exactly its pre-transaction bytes
(truncation back to the position recorded by `Tell()` at stream
construction). -/
theorem C2_rollback (k : Sink) (cIWD : Bool) (fromLine : List Char)
    (chunks : List (List Char)) (hkc : k.closed = false) :
    ((writeMany (MboxMsgOutputStream.mk0 k cIWD fromLine) k chunks).1.Close
      (writeMany (MboxMsgOutputStream.mk0 k cIWD fromLine) k chunks).2).2.2.file
      = k.file := by
  obtain ⟨hp, hc, hne, hcl, t, hf⟩ :=
    writeMany_writeFrame chunks (MboxMsgOutputStream.mk0 k cIWD fromLine) k
      (by simp [MboxMsgOutputStream.mk0])
  unfold MboxMsgOutputStream.Close
  rw [InternalClose_run _ _ hne (by rw [hcl, hkc])
      (by rw [hp]; simp [MboxMsgOutputStream.mk0])]
  rw [hf, hp]
  simp [MboxMsgOutputStream.mk0]

theorem WriteLoop_count (count : Nat) :
    ∀ (rest : List Char) (s : MboxMsgOutputStream) (k : Sink) (acc : List Char)
      (inLine : Bool),
      (s.WriteLoop count k acc inLine rest).1 = .NS_OK →
      (s.WriteLoop count k acc inLine rest).2.1 = count := by
  intro rest
  induction rest with
  | nil =>
    intro s k acc inLine
    rw [MboxMsgOutputStream.WriteLoop.eq_1]
    rcases hq : s.Emit k acc with ⟨rv, s1, k1⟩
    dsimp only
    by_cases hrv : rv = .NS_OK
    · rw [if_pos hrv]
      intro _
      rfl
    · rw [if_neg hrv]
      intro h
      exact absurd h hrv
  | cons c rest2 ih =>
    intro s k acc inLine
    rw [MboxMsgOutputStream.WriteLoop.eq_2]
    by_cases hif : inLine = false ∧ s.mState = .eStartOfLine
    · rw [if_pos hif]
      rcases hdec : DecideEscaping (c :: rest2) with _ | _ | _
      · rcases hq : s.Emit k acc with ⟨rv, s1, k1⟩
        dsimp only
        by_cases hrv : rv = .NS_OK
        · rw [if_pos hrv]
          rcases hq2 : s1.Emit k1 ['>'] with ⟨rv2, s2, k2⟩
          dsimp only
          by_cases hrv2 : rv2 = .NS_OK
          · rw [if_pos hrv2]
            dsimp only
            by_cases hc : c = '\n'
            · rw [if_pos hc]
              exact ih _ _ _ _
            · rw [if_neg hc]
              rcases rest2 with _ | ⟨d, rest3⟩
              · rcases hq3 : s2.Emit k2 ([] ++ [c]) with ⟨rv3, s3, k3⟩
                dsimp only
                by_cases hrv3 : rv3 = .NS_OK
                · rw [if_pos hrv3]
                  intro _
                  rfl
                · rw [if_neg hrv3]
                  intro h
                  exact absurd h hrv3
              · exact ih _ _ _ _
          · rw [if_neg hrv2]
            dsimp only
            intro h
            exact absurd h hrv2
        · rw [if_neg hrv]
          dsimp only
          intro h
          exact absurd h hrv
      · dsimp only
        by_cases hc : c = '\n'
        · rw [if_pos hc]
          exact ih _ _ _ _
        · rw [if_neg hc]
          rcases rest2 with _ | ⟨d, rest3⟩
          · rcases hq3 : s.Emit k (acc ++ [c]) with ⟨rv3, s3, k3⟩
            dsimp only
            by_cases hrv3 : rv3 = .NS_OK
            · rw [if_pos hrv3]
              intro _
              rfl
            · rw [if_neg hrv3]
              intro h
              exact absurd h hrv3
          · exact ih _ _ _ _
      · rcases hq : s.Emit k acc with ⟨rv, s1, k1⟩
        dsimp only
        by_cases hrv : rv = .NS_OK
        · rw [if_pos hrv]
          intro _
          rfl
        · rw [if_neg hrv]
          intro h
          exact absurd h hrv
    · rw [if_neg hif]
      dsimp only
      by_cases hc : c = '\n'
      · rw [if_pos hc]
        exact ih _ _ _ _
      · rw [if_neg hc]
        rcases rest2 with _ | ⟨d, rest3⟩
        · rcases hq3 : s.Emit k (acc ++ [c]) with ⟨rv3, s3, k3⟩
          dsimp only
          by_cases hrv3 : rv3 = .NS_OK
          · rw [if_pos hrv3]
            intro _
            rfl
          · rw [if_neg hrv3]
            intro h
            exact absurd h hrv3
        · exact ih _ _ _ _

/-- C9: `Write()` never reports partial consumption: on success the
reported bytesWritten always equals the full count (even when trailing
bytes were only buffered awaiting an escaping decision), and a
zero-byte write succeeds immediately with nothing emitted, not even
the envelope line. -/
theorem C9_full_consumption (s : MboxMsgOutputStream) (k : Sink)
    (buf : List Char) :
    ((s.Write k buf).1 = .NS_OK → (s.Write k buf).2.1 = buf.length) ∧
    s.Write k [] = (.NS_OK, 0, s, k) := by
  constructor
  · unfold MboxMsgOutputStream.Write
    by_cases hb : buf.length = 0
    · rw [if_pos hb]
      intro _
      exact hb.symm
    · rw [if_neg hb]
      by_cases hini : s.mState = .eInitial
      · rw [if_pos hini]
        rcases hq : s.Emit k s.mFromLine with ⟨rv, s1, k1⟩
        dsimp only
        by_cases hrv : rv = .NS_OK
        · rw [if_pos hrv]
          dsimp only
          rw [if_neg (show ¬(Nsresult.NS_OK ≠ Nsresult.NS_OK) by simp)]
          rw [if_neg (show ¬({ s1 with mState := MboxWState.eStartOfLine} :
              MboxMsgOutputStream).mState = .eStartAwaitingData by simp)]
          exact WriteLoop_count _ _ _ _ _ _
        · rw [if_neg hrv]
          dsimp only
          rw [if_pos (show rv ≠ Nsresult.NS_OK from hrv)]
          intro h
          exact absurd h hrv
      · rw [if_neg hini]
        dsimp only
        rw [if_neg (show ¬(Nsresult.NS_OK ≠ Nsresult.NS_OK) by simp)]
        by_cases hsad : s.mState = .eStartAwaitingData
        · rw [if_pos hsad]
          rcases hA : awaitLoop s.mStartFragment buf with frag2 | ⟨doEsc, frag2, rest⟩
          · dsimp only
            intro _
            rfl
          · dsimp only
            rcases doEsc
            · rw [if_neg (show ¬((false : Bool) = true) by simp)]
              dsimp only
              rw [if_neg (show ¬(Nsresult.NS_OK ≠ Nsresult.NS_OK) by simp)]
              rcases hq3 : s.Emit k frag2 with ⟨rv3, s3, k3⟩
              dsimp only
              by_cases hrv3 : rv3 = .NS_OK
              · rw [if_neg (show ¬(rv3 ≠ Nsresult.NS_OK) by simp [hrv3])]
                exact WriteLoop_count _ _ _ _ _ _
              · rw [if_pos (show rv3 ≠ Nsresult.NS_OK from hrv3)]
                intro h
                exact absurd h hrv3
            · rw [if_pos (show (true : Bool) = true from rfl)]
              rcases hq2 : s.Emit k ['>'] with ⟨rv2, s2, k2⟩
              dsimp only
              by_cases hrv2 : rv2 = .NS_OK
              · rw [if_neg (show ¬(rv2 ≠ Nsresult.NS_OK) by simp [hrv2])]
                rcases hq3 : s2.Emit k2 frag2 with ⟨rv3, s3, k3⟩
                dsimp only
                by_cases hrv3 : rv3 = .NS_OK
                · rw [if_neg (show ¬(rv3 ≠ Nsresult.NS_OK) by simp [hrv3])]
                  exact WriteLoop_count _ _ _ _ _ _
                · rw [if_pos (show rv3 ≠ Nsresult.NS_OK from hrv3)]
                  intro h
                  exact absurd h hrv3
              · rw [if_pos (show rv2 ≠ Nsresult.NS_OK from hrv2)]
                intro h
                exact absurd h hrv2
        · rw [if_neg hsad]
          exact WriteLoop_count _ _ _ _ _ _
  · rfl

/-- C1 (code defect, exercised at a concrete input): splitting the body
`F\nFrom x\n` into the two writes `F` and `\nFrom x\n` produces
different bytes than a single write of the whole body — the chunked run
leaves the `From x` line unescaped, because after flushing a
newline-terminated fragment the state is left as `eStartAwaitingData`
rather than `eStartOfLine`, so the escaping decision for the next line
in the same call is skipped. -/
theorem C1_chunking_divergence :
    (writeMany (MboxMsgOutputStream.mk0 okSink0 false envLine0) okSink0
        ["F".toList, "\nFrom x\n".toList]).2.file = "E\nF\nFrom x\n".toList ∧
    (writeMany (MboxMsgOutputStream.mk0 okSink0 false envLine0) okSink0
        ["F\nFrom x\n".toList]).2.file = "E\nF\n>From x\n".toList ∧
    (writeMany (MboxMsgOutputStream.mk0 okSink0 false envLine0) okSink0
        ["F".toList, "\nFrom x\n".toList]).2.file ≠
      (writeMany (MboxMsgOutputStream.mk0 okSink0 false envLine0) okSink0
        ["F\nFrom x\n".toList]).2.file ∧
    "F".toList ++ "\nFrom x\n".toList = "F\nFrom x\n".toList := by
  refine ⟨by decide, by decide, by decide, by decide⟩

/-- C6 (code defect, exercised at a concrete input): a stream latched
in the error state does not return the cached status on a subsequent
`Write()` whose data contains a newline: the scanning loop overwrites
`mState` with `eStartOfLine` before any `Emit`, so the write reports
success, the bytes reach the underlying sink, and even `StreamStatus`
reports OK afterwards.  (A newline-free write does return the cached
status, for contrast.) -/
theorem C6_error_latch_broken :
    (errStream0.Write okSink0 ("x\n".toList)).1 = .NS_OK ∧
    (errStream0.Write okSink0 ("x\n".toList)).2.2.2.file = "x\n".toList ∧
    (errStream0.Write okSink0 ("x\n".toList)).2.2.1.StreamStatus = .NS_OK ∧
    (errStream0.Write okSink0 ("x".toList)).1 = .NS_ERROR_FAILURE := by
  refine ⟨by decide, by decide, by decide, by decide⟩

theorem ChangeFlagsLoop_run (rwOk : Nat → Bool) :
    ∀ (toks : List Nat) (acc : CFResult),
      ChangeFlagsLoop rwOk (toks.map (fun t => ({ storeToken := some t } : MsgHdr))) acc =
        { acc with
          visited := acc.visited ++ toks.takeWhile rwOk ++ (toks.dropWhile rwOk).take 1,
          rewritten := acc.rewritten ++ toks.takeWhile rwOk,
          streamClosed := true, dbMarkedValid := true, status := .NS_OK } := by
  intro toks
  induction toks with
  | nil =>
    intro acc
    simp [ChangeFlagsLoop]
  | cons t ts ih =>
    intro acc
    simp only [List.map_cons, ChangeFlagsLoop]
    by_cases hr : rwOk t
    · rw [if_pos hr, ih]
      simp [List.takeWhile_cons, List.dropWhile_cons, hr]
    · rw [if_neg hr]
      simp [List.takeWhile_cons, List.dropWhile_cons, hr]

theorem ChangeKeywordsLoop_streams (ckOk : Nat → Bool) :
    ∀ (hdrs : List MsgHdr) (acc : CFResult),
      (ChangeKeywordsLoop ckOk hdrs acc).streamsOpened = acc.streamsOpened := by
  intro hdrs
  induction hdrs with
  | nil =>
    intro acc
    simp [ChangeKeywordsLoop]
  | cons h rest ih =>
    intro acc
    simp only [ChangeKeywordsLoop]
    rcases h.storeToken with _ | off
    · rfl
    · dsimp only
      by_cases hr : ckOk off
      · rw [if_pos hr, ih]
      · rw [if_neg hr]

theorem ChangeKeywordsLoop_run_ok (ckOk : Nat → Bool) :
    ∀ (toks : List Nat) (acc : CFResult), (∀ t ∈ toks, ckOk t = true) →
      ChangeKeywordsLoop ckOk
          (toks.map (fun t => ({ storeToken := some t } : MsgHdr))) acc =
        { acc with
          visited := acc.visited ++ toks, rewritten := acc.rewritten ++ toks,
          streamClosed := true, dbMarkedValid := true, status := .NS_OK } := by
  intro toks
  induction toks with
  | nil =>
    intro acc _
    simp [ChangeKeywordsLoop]
  | cons t ts ih =>
    intro acc hall
    simp only [List.map_cons, ChangeKeywordsLoop]
    rw [if_pos (hall t (by simp)), ih _ (fun x hx => hall x (by simp [hx]))]
    simp

/-- C10: `ChangeFlags` swallows mid-batch rewrite failures.  For every
nonempty header array whose store tokens parse, the rewrites proceed in
array order up to the first failing message and stop there (later
messages are left untouched), yet the stream is still closed, the
summary file still marked valid, and `NS_OK` still returned. -/
theorem C10_changeflags_swallows_failures (rwOk : Nat → Bool)
    (toks : List Nat) (hne : toks ≠ []) :
    (ChangeFlags rwOk (toks.map (fun t => ({ storeToken := some t } : MsgHdr)))).status
        = .NS_OK ∧
    (ChangeFlags rwOk (toks.map (fun t => ({ storeToken := some t } : MsgHdr)))).streamClosed
        = true ∧
    (ChangeFlags rwOk (toks.map (fun t => ({ storeToken := some t } : MsgHdr)))).dbMarkedValid
        = true ∧
    (ChangeFlags rwOk (toks.map (fun t => ({ storeToken := some t } : MsgHdr)))).rewritten
        = toks.takeWhile rwOk ∧
    (ChangeFlags rwOk (toks.map (fun t => ({ storeToken := some t } : MsgHdr)))).visited
        = toks.takeWhile rwOk ++ (toks.dropWhile rwOk).take 1 := by
  unfold ChangeFlags
  rw [if_neg (by simp [hne]), ChangeFlagsLoop_run]
  simp

theorem C10_witness :
    ([7, 3, 9] : List Nat) ≠ [] ∧
    ((ChangeFlags (fun t => t ≠ 3)
        ([7, 3, 9].map (fun t => ({ storeToken := some t } : MsgHdr)))).status
          = .NS_OK ∧
     (ChangeFlags (fun t => t ≠ 3)
        ([7, 3, 9].map (fun t => ({ storeToken := some t } : MsgHdr)))).streamClosed
          = true ∧
     (ChangeFlags (fun t => t ≠ 3)
        ([7, 3, 9].map (fun t => ({ storeToken := some t } : MsgHdr)))).dbMarkedValid
          = true ∧
     (ChangeFlags (fun t => t ≠ 3)
        ([7, 3, 9].map (fun t => ({ storeToken := some t } : MsgHdr)))).rewritten
          = [7, 3, 9].takeWhile (fun t => t ≠ 3) ∧
     (ChangeFlags (fun t => t ≠ 3)
        ([7, 3, 9].map (fun t => ({ storeToken := some t } : MsgHdr)))).visited
          = [7, 3, 9].takeWhile (fun t => t ≠ 3) ++
              ([7, 3, 9].dropWhile (fun t => t ≠ 3)).take 1) :=
  ⟨by decide, C10_changeflags_swallows_failures (fun t => t ≠ 3) [7, 3, 9] (by decide)⟩

/-- C7 as stated is false on the code: `ChangeFlags` visits the headers
in the caller-supplied array order, with no sorting.  With store tokens
`[200, 100]` the visit order is `[200, 100]`, which is not ascending. -/
theorem C7_counterexample :
    (ChangeFlags (fun _ => true)
        [{ storeToken := some 200 }, { storeToken := some 100 }]).visited
      = [200, 100] ∧
    ¬ List.Sorted (· ≤ ·)
        (ChangeFlags (fun _ => true)
          [{ storeToken := some 200 }, { storeToken := some 100 }]).visited ∧
    (ChangeFlags (fun _ => true)
        [{ storeToken := some 200 }, { storeToken := some 100 }]).streamsOpened = 1 := by
  refine ⟨by decide, ?_, by decide⟩
  intro h
  rw [show (ChangeFlags (fun _ => true)
      [{ storeToken := some 200 }, { storeToken := some 100 }]).visited
      = [200, 100] from by decide] at h
  have := List.rel_of_sorted_cons h 100 (by simp)
  omega

/-- C7 (amended): for every nonempty header array whose store tokens
parse, `ChangeFlags` and `ChangeKeywords` open exactly one
writable+seekable stream handle for the whole batch and seek to each
message's store token in the caller-supplied array order (the code
performs no sorting); when every rewrite succeeds, every message is
visited, in that order. -/
theorem C7_single_handle_array_order (rwOk ckOk : Nat → Bool)
    (toks : List Nat) (hne : toks ≠ []) :
    (ChangeFlags rwOk (toks.map (fun t => ({ storeToken := some t } : MsgHdr)))).streamsOpened
        = 1 ∧
    (ChangeKeywords ckOk (toks.map (fun t => ({ storeToken := some t } : MsgHdr)))).streamsOpened
        = 1 ∧
    ((∀ t ∈ toks, rwOk t = true) →
      (ChangeFlags rwOk (toks.map (fun t => ({ storeToken := some t } : MsgHdr)))).visited
        = toks) ∧
    ((∀ t ∈ toks, ckOk t = true) →
      (ChangeKeywords ckOk (toks.map (fun t => ({ storeToken := some t } : MsgHdr)))).visited
        = toks) := by
  have hne2 : toks.map (fun t => ({ storeToken := some t } : MsgHdr)) ≠ [] := by
    simp [hne]
  refine ⟨?_, ?_, ?_, ?_⟩
  · unfold ChangeFlags
    rw [if_neg hne2, ChangeFlagsLoop_run]
  · unfold ChangeKeywords
    rw [if_neg hne2, ChangeKeywordsLoop_streams]
  · intro hall
    unfold ChangeFlags
    rw [if_neg hne2, ChangeFlagsLoop_run]
    have h1 : toks.takeWhile rwOk = toks := List.takeWhile_eq_self_iff.mpr hall
    have h2 : toks.dropWhile rwOk = [] := List.dropWhile_eq_nil_iff.mpr hall
    simp [h1, h2]
  · intro hall
    unfold ChangeKeywords
    rw [if_neg hne2, ChangeKeywordsLoop_run_ok ckOk toks _ hall]
    simp

theorem C7_witness :
    ([5, 2] : List Nat) ≠ [] ∧
    ((ChangeFlags (fun _ => true)
        ([5, 2].map (fun t => ({ storeToken := some t } : MsgHdr)))).streamsOpened = 1 ∧
     (ChangeKeywords (fun _ => true)
        ([5, 2].map (fun t => ({ storeToken := some t } : MsgHdr)))).streamsOpened = 1 ∧
     ((∀ t ∈ ([5, 2] : List Nat), (fun _ => true) t = true) →
       (ChangeFlags (fun _ => true)
        ([5, 2].map (fun t => ({ storeToken := some t } : MsgHdr)))).visited = [5, 2]) ∧
     ((∀ t ∈ ([5, 2] : List Nat), (fun _ => true) t = true) →
       (ChangeKeywords (fun _ => true)
        ([5, 2].map (fun t => ({ storeToken := some t } : MsgHdr)))).visited = [5, 2])) :=
  ⟨by decide, C7_single_handle_array_order (fun _ => true) (fun _ => true) [5, 2] (by decide)⟩

/-- C8: the 4GiB-cap pre-flight of `HasSpaceAvailable`.  With the
allow-over-4GB preference off, space is reported available exactly when
the current file size plus the requested space stays strictly below
0xFFC00000 (4 GiB − 4 MiB), with the distinct file-too-big error
otherwise; under the cap, or with the preference on, the result is the
free-disk-space check, failing with the distinct no-device-space
error. -/
theorem C8_space_cap (fileSize aSpaceRequested : Int) (disk : Bool) :
    (¬(fileSize + aSpaceRequested < 0xFFC00000) →
      HasSpaceAvailable false fileSize aSpaceRequested disk =
        (.NS_ERROR_FILE_TOO_BIG, false)) ∧
    ((fileSize + aSpaceRequested < 0xFFC00000) →
      HasSpaceAvailable false fileSize aSpaceRequested disk =
        (if disk then (.NS_OK, true) else (.NS_ERROR_FILE_NO_DEVICE_SPACE, false))) ∧
    HasSpaceAvailable true fileSize aSpaceRequested disk =
      (if disk then (.NS_OK, true) else (.NS_ERROR_FILE_NO_DEVICE_SPACE, false)) := by
  refine ⟨?_, ?_, ?_⟩
  · intro h
    unfold HasSpaceAvailable
    simp [h]
  · intro h
    unfold HasSpaceAvailable
    rcases disk <;> simp [h]
  · unfold HasSpaceAvailable
    rcases disk <;> simp

theorem C8_witness :
    (¬((0xFFC00000 : Int) + 0 < 0xFFC00000)) ∧
    HasSpaceAvailable false 0xFFC00000 0 true = (.NS_ERROR_FILE_TOO_BIG, false) :=
  ⟨by decide, (C8_space_cap 0xFFC00000 0 true).1 (by decide)⟩

/-- C3 (code defect, exercised at a concrete input): opening a second
write stream on a folder with an outstanding one does keep at most one
table entry per folder, closes the old raw stream (whose later writes
then fail as no-ops) and lets the new stream proceed — but it does not
roll back the first stream's partial writes: closing the raw buffered
file stream only flushes it, so the partial bytes (here `partial`,
written after the pre-transaction content `A\n\n`) stay in the file,
and the missing-EOL mitigation even appends a CRLF after them. -/
theorem C3_second_writer_no_rollback :
    ((InternalGetNewMsgOutputStream "f1"
        { file := "A\n\npartial".toList, table := [("f1", 0)],
          closedRaw := [], nextId := 1 }).1.table = [("f1", 1)]) ∧
    (0 ∈ (InternalGetNewMsgOutputStream "f1"
        { file := "A\n\npartial".toList, table := [("f1", 0)],
          closedRaw := [], nextId := 1 }).1.closedRaw) ∧
    (rawWrite (InternalGetNewMsgOutputStream "f1"
        { file := "A\n\npartial".toList, table := [("f1", 0)],
          closedRaw := [], nextId := 1 }).1 0 ("xy".toList) =
      (.NS_BASE_STREAM_CLOSED,
       (InternalGetNewMsgOutputStream "f1"
        { file := "A\n\npartial".toList, table := [("f1", 0)],
          closedRaw := [], nextId := 1 }).1)) ∧
    ((rawWrite (InternalGetNewMsgOutputStream "f1"
        { file := "A\n\npartial".toList, table := [("f1", 0)],
          closedRaw := [], nextId := 1 }).1 1 ("xy".toList)).1 = .NS_OK) ∧
    ((InternalGetNewMsgOutputStream "f1"
        { file := "A\n\npartial".toList, table := [("f1", 0)],
          closedRaw := [], nextId := 1 }).1.file = "A\n\npartial\r\n".toList) ∧
    ((InternalGetNewMsgOutputStream "f1"
        { file := "A\n\npartial".toList, table := [("f1", 0)],
          closedRaw := [], nextId := 1 }).1.file ≠ "A\n\n".toList) := by
  refine ⟨by decide, by decide, by decide, by decide, by decide, by decide⟩

theorem C2_witness :
    okSink0.closed = false ∧
    ((writeMany (MboxMsgOutputStream.mk0 okSink0 false envLine0) okSink0
        [("a".toList), ("b\nFrom c".toList)]).1.Close
      (writeMany (MboxMsgOutputStream.mk0 okSink0 false envLine0) okSink0
        [("a".toList), ("b\nFrom c".toList)]).2).2.2.file = okSink0.file :=
  ⟨rfl, C2_rollback okSink0 false envLine0 [("a".toList), ("b\nFrom c".toList)] rfl⟩

theorem C4_witness :
    ("From a\nx".toList ≠ ([] : List Char)) ∧
    (((MboxMsgOutputStream.mk0 okSink0 false envLine0).Write okSink0
        ("From a\nx".toList)).2.2.1.Finish
      ((MboxMsgOutputStream.mk0 okSink0 false envLine0).Write okSink0
        ("From a\nx".toList)).2.2.2).2.2.file =
      okSink0.file ++ envLine0 ++ specMboxEscape ("From a\nx".toList) ++
        (if ("From a\nx".toList).getLast? = some '\n' then [] else crlf) ++ crlf :=
  ⟨by decide, C4_escaping_rule okSink0 false envLine0 ("From a\nx".toList)
    (by decide) rfl rfl⟩

theorem C9_witness :
    (((MboxMsgOutputStream.mk0 okSink0 false envLine0).Write okSink0
        ("ab\n".toList)).1 = .NS_OK) ∧
    ((MboxMsgOutputStream.mk0 okSink0 false envLine0).Write okSink0
        ("ab\n".toList)).2.1 = ("ab\n".toList).length :=
  ⟨by decide,
   (C9_full_consumption (MboxMsgOutputStream.mk0 okSink0 false envLine0) okSink0
      ("ab\n".toList)).1 (by decide)⟩

theorem C5_witness :
    (midStream0.mState = .eStartOfLine ∨ midStream0.mState = .eMidLine ∨
      midStream0.mState = .eStartAwaitingData) ∧
    ((midStream0.Finish okSink0).2.1.mState = .eClosed ∧
     ((midStream0.Finish okSink0).1 = .NS_OK →
       (midStream0.Finish okSink0).2.2.file =
         okSink0.file ++ (if midStream0.mState = .eMidLine then crlf else []) ++
           (if midStream0.mState = .eStartAwaitingData then
             midStream0.mStartFragment ++ crlf else []) ++ crlf ∧
       (midStream0.Finish okSink0).2.2.closed = midStream0.mCloseInnerWhenDone) ∧
     ((midStream0.Finish okSink0).1 ≠ .NS_OK →
       (midStream0.Finish okSink0).2.2.file =
         okSink0.file.take midStream0.mStartPos.toNat ∧
       (midStream0.Finish okSink0).2.2.closed = midStream0.mCloseInnerWhenDone)) :=
  ⟨by right; left; rfl,
   C5_finish_postcondition midStream0 okSink0 (by right; left; rfl)
     (by intro h; cases h) rfl (by decide) (by decide)⟩
